import Mathlib

/-!
Verification development for the Spotlight+AI museum-recommendation concept
(`spotlight-ai.ts`) and its resilient Gemini LLM wrapper (`gemini-llm` with
memoization and retry, the file with the process-wide `memo` map).

Strings are modelled as `List Char` (`Str`).  JavaScript numbers are modelled
as rationals `ℚ` (all numeric values reaching the validators originate from
`JSON.parse`, whose grammar denotes exact decimal rationals).  Timestamps
(`Date.now()` / ISO strings) are modelled as `Nat` instants supplied by the
caller.  The external model call is an oracle parameter.
-/

-- Restore definitional transparency of the Batteries rational primitives so
-- that concrete runs of the model evaluate inside `decide`.
attribute [local semireducible] Rat.add Rat.mul Rat.sub Rat.inv

/-- Strings are lists of characters. -/
abbrev Str := List Char

/-- JavaScript whitespace class `\s` restricted to the characters that occur in
this code base (space, tab, newline, carriage return, form feed, vertical tab). -/
def jsWS (c : Char) : Bool :=
  c = ' ' || c = '\t' || c = '\n' || c = '\r' || c = '\x0c' || c = '\x0b'

/-- `String.prototype.trimStart`. -/
def jsTrimLeft (s : Str) : Str := s.dropWhile jsWS

/-- `String.prototype.trimEnd`. -/
def jsTrimRight (s : Str) : Str := (s.reverse.dropWhile jsWS).reverse

/-- `String.prototype.trim`. -/
def jsTrim (s : Str) : Str := jsTrimRight (jsTrimLeft s)

/-- ASCII lower-casing of a character (JS `toLowerCase` on the ASCII range). -/
def charLower (c : Char) : Char :=
  if 'A' ≤ c && c ≤ 'Z' then Char.ofNat (c.toNat + 32) else c

/-- ASCII upper-casing of a character (JS `toUpperCase` on the ASCII range). -/
def charUpper (c : Char) : Char :=
  if 'a' ≤ c && c ≤ 'z' then Char.ofNat (c.toNat - 32) else c

/-- Case-insensitive equality of two characters (ASCII). -/
def charEqCI (a b : Char) : Bool := charLower a = charLower b

/-- Does `hay` contain `needle` as a contiguous substring? -/
def hasSubstr (needle hay : Str) : Bool :=
  match hay with
  | [] => needle.isEmpty
  | _ :: t => needle.isPrefixOf hay || hasSubstr needle t

/-- Case-insensitive prefix test. -/
def isPrefixOfCI (needle hay : Str) : Bool :=
  match needle, hay with
  | [], _ => true
  | _ :: _, [] => false
  | a :: ns, b :: hs => charEqCI a b && isPrefixOfCI ns hs

/-- Case-insensitive substring test (regex `/pat/i.test(hay)` for a literal `pat`). -/
def hasSubstrCI (needle hay : Str) : Bool :=
  match hay with
  | [] => needle.isEmpty
  | _ :: t => isPrefixOfCI needle hay || hasSubstrCI needle t

/-- Digit list to the natural number it denotes in base 10 (JS `parseInt(_, 10)`
on an all-digit string). -/
def digitsToNat (ds : Str) : Nat :=
  ds.foldl (fun acc c => acc * 10 + (c.toNat - '0'.toNat)) 0

/-! ## JSON values and `JSON.parse`

`JSON.parse` is modelled by a fuel-indexed recursive-descent parser over the
JSON grammar.  Numbers are denoted exactly as rationals.  Object member lists
keep source order; as in JavaScript, a repeated key denotes its last value. -/

/-- JSON values (the possible results of `JSON.parse`). -/
inductive JVal where
  | null : JVal
  | bool (b : Bool) : JVal
  | num (q : ℚ) : JVal
  | str (s : Str) : JVal
  | arr (elems : List JVal) : JVal
  | obj (fields : List (Str × JVal)) : JVal

/-- JSON insignificant whitespace (space, tab, line feed, carriage return). -/
def jsonWS (c : Char) : Bool :=
  c = ' ' || c = '\t' || c = '\n' || c = '\r'

/-- Property access `o[k]` on a JSON object: the last binding wins, as in a
JavaScript object literal with repeated keys. -/
def objGet (fields : List (Str × JVal)) (k : Str) : Option JVal :=
  fields.foldl (fun acc f => if f.1 = k then some f.2 else acc) none

/-- Hexadecimal digit value, by codepoint ranges (0-9 at 48, a-f at 97, A-F at 65). -/
def hexVal (c : Char) : Option Nat :=
  let n := c.toNat
  if 48 ≤ n ∧ n ≤ 57 then some (n - 48)
  else if 97 ≤ n ∧ n ≤ 102 then some (n - 87)
  else if 65 ≤ n ∧ n ≤ 70 then some (n - 55)
  else none

/-- Parse the body of a JSON string literal (after the opening quote),
returning the decoded characters and the input after the closing quote. -/
def parseJsonStr : Str → Option (Str × Str)
  | [] => none
  | '"' :: rest => some ([], rest)
  | '\\' :: 'u' :: h1 :: h2 :: h3 :: h4 :: rest =>
    match hexVal h1, hexVal h2, hexVal h3, hexVal h4 with
    | some a, some b, some c, some d =>
      match parseJsonStr rest with
      | some (s, rest2) => some (Char.ofNat (((a * 16 + b) * 16 + c) * 16 + d) :: s, rest2)
      | none => none
    | _, _, _, _ => none
  | '\\' :: e :: rest =>
    let esc : Option Char :=
      match e with
      | '"' => some '"'
      | '\\' => some '\\'
      | '/' => some '/'
      | 'b' => some '\x08'
      | 'f' => some '\x0c'
      | 'n' => some '\n'
      | 'r' => some '\r'
      | 't' => some '\t'
      | _ => none
    match esc with
    | some c =>
      match parseJsonStr rest with
      | some (s, rest2) => some (c :: s, rest2)
      | none => none
    | none => none
  | c :: rest =>
    if c.toNat < 32 then none
    else
      match parseJsonStr rest with
      | some (s, rest2) => some (c :: s, rest2)
      | none => none

/-- Parse a JSON number starting at the head of the input. -/
def parseJsonNum (s : Str) : Option (ℚ × Str) :=
  let (neg, s1) : Bool × Str := match s with | '-' :: t => (true, t) | _ => (false, s)
  let intDigits := s1.takeWhile Char.isDigit
  let s2 := s1.dropWhile Char.isDigit
  -- JSON integer part: `0` or a nonzero digit followed by digits (no leading 0)
  if intDigits.isEmpty then none
  else if intDigits.length > 1 && intDigits.headI = '0' then none
  else
    let ipart : ℚ := (digitsToNat intDigits : ℚ)
    let (fpart, s3) : ℚ × Str :=
      match s2 with
      | '.' :: t =>
        let fd := t.takeWhile Char.isDigit
        if fd.isEmpty then (0, s2) -- handled below as failure marker
        else ((digitsToNat fd : ℚ) / ((10 : ℚ) ^ fd.length), t.dropWhile Char.isDigit)
      | _ => (0, s2)
    -- a lone '.' with no digits is a syntax error
    if (match s2 with | '.' :: t => (t.takeWhile Char.isDigit).isEmpty | _ => false) then none
    else
      let (eok, epow, s4) : Bool × ℤ × Str :=
        match s3 with
        | 'e' :: t | 'E' :: t =>
          let (esign, t1) : ℤ × Str :=
            match t with
            | '+' :: t2 => (1, t2)
            | '-' :: t2 => (-1, t2)
            | _ => (1, t)
          let ed := t1.takeWhile Char.isDigit
          if ed.isEmpty then (false, 0, s3)
          else (true, esign * (digitsToNat ed : ℤ), t1.dropWhile Char.isDigit)
        | _ => (true, 0, s3)
      if !eok then none
      else
        let base : ℚ := ipart + fpart
        let mag : ℚ :=
          if 0 ≤ epow then base * (10 : ℚ) ^ epow.toNat else base / (10 : ℚ) ^ (-epow).toNat
        some (if neg then -mag else mag, s4)

mutual

/-- One step of the JSON grammar, with `fuel` bounding nesting depth.
Returns the parsed value and the remaining input. -/
def parseJsonVal : Nat → Str → Option (JVal × Str)
  | 0, _ => none
  | fuel + 1, s =>
    match s.dropWhile jsonWS with
    | 'n' :: 'u' :: 'l' :: 'l' :: rest => some (.null, rest)
    | 't' :: 'r' :: 'u' :: 'e' :: rest => some (.bool true, rest)
    | 'f' :: 'a' :: 'l' :: 's' :: 'e' :: rest => some (.bool false, rest)
    | '"' :: rest =>
      match parseJsonStr rest with
      | some (str, rest2) => some (.str str, rest2)
      | none => none
    | '[' :: rest => parseJsonArr fuel rest true []
    | '{' :: rest => parseJsonObj fuel rest true []
    | c :: rest =>
      if c = '-' || c.isDigit then (parseJsonNum (c :: rest)).map fun p => (.num p.1, p.2)
      else none
    | [] => none

/-- Elements of a JSON array after `[`; `first` is true before any element. -/
def parseJsonArr : Nat → Str → Bool → List JVal → Option (JVal × Str)
  | 0, _, _, _ => none
  | fuel + 1, s, first, acc =>
    match s.dropWhile jsonWS with
    | ']' :: rest => if first then some (.arr acc.reverse, rest) else none
    | s1 =>
      let s2 := if first then some s1 else (match s1 with | ',' :: r => some r | _ => none)
      match s2 with
      | none => none
      | some s3 =>
        match parseJsonVal fuel s3 with
        | some (v, rest) =>
          match rest.dropWhile jsonWS with
          | ']' :: rest2 => some (.arr (v :: acc).reverse, rest2)
          | ',' :: _ => parseJsonArr fuel (rest.dropWhile jsonWS) false (v :: acc)
          | _ => none
        | none => none

/-- Members of a JSON object after an opening brace; `first` is true before any
member. -/
def parseJsonObj : Nat → Str → Bool → List (Str × JVal) → Option (JVal × Str)
  | 0, _, _, _ => none
  | fuel + 1, s, first, acc =>
    match s.dropWhile jsonWS with
    | '}' :: rest => if first then some (.obj acc.reverse, rest) else none
    | s1 =>
      let s2 := if first then some s1 else (match s1 with | ',' :: r => some r | _ => none)
      match s2 with
      | none => none
      | some s3 =>
        match s3.dropWhile jsonWS with
        | '"' :: rest =>
          match parseJsonStr rest with
          | some (key, rest2) =>
            match rest2.dropWhile jsonWS with
            | ':' :: rest3 =>
              match parseJsonVal fuel rest3 with
              | some (v, rest4) =>
                match rest4.dropWhile jsonWS with
                | '}' :: rest5 => some (.obj ((key, v) :: acc).reverse, rest5)
                | ',' :: _ => parseJsonObj fuel (rest4.dropWhile jsonWS) false ((key, v) :: acc)
                | _ => none
              | none => none
            | _ => none
          | none => none
        | _ => none

end

/-- `JSON.parse`: parse a whole document; leading and trailing whitespace is
allowed, any other trailing input is a syntax error (`none`). -/
def jsonParse (s : Str) : Option JVal :=
  match parseJsonVal (s.length + 1) s with
  | some (v, rest) => if (rest.dropWhile jsonWS).isEmpty then some v else none
  | none => none

/-- Shorthand turning a Lean string literal into the `Str` model. -/
def lit (s : String) : Str := s.toList

/-! ## Domain model (`spotlight-ai.ts`) -/

/-- Affinity tiers. -/
inductive Taste where
  | LOVE : Taste
  | LIKE : Taste
  | MEH : Taste
deriving DecidableEq, Repr

/-- A row of the `TasteSignals` set. -/
structure TasteSignalRow where
  user : Str
  museum : Str
  taste : Taste
  updatedAt : Nat
deriving DecidableEq, Repr

/-- A row of the `Recommendations` set. -/
structure RecommendationRow where
  user : Str
  museum : Str
  score : ℚ
  rationale : Str
  generatedAt : Nat
  modelVersion : Str
  promptHash : Str
deriving DecidableEq, Repr

/-- The in-memory `SpotlightAIStore`: both maps default to `[]` for an absent
key, matching `this.store.X.get(user) ?? []`. -/
structure SpotState where
  TasteSignals : Str → List TasteSignalRow
  Recommendations : Str → List RecommendationRow

/-- The store at process start: both maps empty. -/
def emptySpotState : SpotState := ⟨fun _ => [], fun _ => []⟩

/-- `Map.set`. -/
def setMap {α : Type} (f : Str → α) (k : Str) (v : α) : Str → α :=
  fun x => if x = k then v else f x

/-- `findIndex`-based upsert: replace the first row for `museum`, else push. -/
def upsertTaste (user museum : Str) (taste : Taste) (now : Nat) :
    List TasteSignalRow → List TasteSignalRow
  | [] => [⟨user, museum, taste, now⟩]
  | ts :: rest =>
    if ts.museum = museum then ⟨user, museum, taste, now⟩ :: rest
    else ts :: upsertTaste user museum taste now rest

/-- `SpotlightAI.recordMuseumTaste`. -/
def recordMuseumTaste (st : SpotState) (user museum : Str) (taste : Taste) (now : Nat) :
    SpotState :=
  { st with
    TasteSignals :=
      setMap st.TasteSignals user (upsertTaste user museum taste now (st.TasteSignals user)) }

/-- `SpotlightAI.clearMuseumTaste`. -/
def clearMuseumTaste (st : SpotState) (user museum : Str) : SpotState :=
  { st with
    TasteSignals :=
      setMap st.TasteSignals user
        ((st.TasteSignals user).filter fun ts => decide (ts.museum ≠ museum)) }

/-! ## Stable descending sort

`Array.prototype.sort` with the comparator `(a, b) => b.score - a.score` is a
stable sort putting larger scores first (ECMA-262 requires sort stability).
It is modelled by a stable insertion sort: an element is inserted before the
first strictly smaller score, after all earlier elements with an equal score. -/

/-- Insert `r` before the first element whose score is strictly smaller. -/
def insertScoreDesc {α : Type} (score : α → ℚ) (r : α) : List α → List α
  | [] => [r]
  | x :: xs => if score x ≤ score r then r :: x :: xs else x :: insertScoreDesc score r xs

/-- Stable sort by `score` descending. -/
def sortByScoreDesc {α : Type} (score : α → ℚ) (l : List α) : List α :=
  l.foldr (insertScoreDesc score) []

/-- `clamp01`: clamp a score into `[0,1]`.  (The `Number.isNaN` branch of the
source has no counterpart: every score reaching it is a rational denoted by a
JSON numeral, and `NaN` is not denotable.) -/
def clamp01 (n : ℚ) : ℚ := max 0 (min 1 n)

/-- JS `Math.round`: round half toward positive infinity, i.e. `⌊q + 1/2⌋`. -/
def jsRound (q : ℚ) : ℤ := (q + 1/2).num.fdiv ((q + 1/2).den : ℤ)

/-! ## The percent marker

Both validators use the anchored pattern `(` digits{1,3} `%` ws* `match` `)`
ws+ (case-insensitive).  Because the character after a maximal digit run is
never a digit, regex backtracking cannot succeed where the greedy match fails,
so a maximal-munch matcher is equivalent to the regex. -/

/-- Case-insensitive literal prefix removal. -/
def dropCaseless : Str → Str → Option Str
  | [], s => some s
  | _ :: _, [] => none
  | p :: ps, c :: cs => if charEqCI p c then dropCaseless ps cs else none

/-- Match `^\((\d{1,3})%\s*match\)\s+/i` at the head of `s`; on success return
the percent value and the remainder after the matched text (greedy `\s+`). -/
def matchPctMarker (s : Str) : Option (Nat × Str) :=
  match s with
  | [] => none
  | c0 :: t =>
    if c0 = '(' then
      let d := t.takeWhile Char.isDigit
      let t1 := t.dropWhile Char.isDigit
      if d.length < 1 || 3 < d.length then none
      else
        match t1 with
        | [] => none
        | c1 :: t2 =>
          if c1 = '%' then
            match dropCaseless (lit "match") (t2.dropWhile jsWS) with
            | some (c3 :: t4) =>
              if c3 = ')' then
                match t4 with
                | w :: t5 => if jsWS w then some (digitsToNat d, t5.dropWhile jsWS) else none
                | [] => none
              else none
            | _ => none
          else none
    else none

/-! ## Banned-vocabulary scan

The source tests `/\b(LOVE|LIKE|MEH)\b/` — with no `i` flag, so only the
upper-case spellings are banned.  `\b` separates word characters
`[A-Za-z0-9_]` from non-word characters or the ends of the string. -/

/-- JS regex word character. -/
def isWordChar (c : Char) : Bool :=
  ('A' ≤ c && c ≤ 'Z') || ('a' ≤ c && c ≤ 'z') || c.isDigit || c = '_'

/-- Does `tok` occur at the head of `s`, with a word boundary on both sides
(`prev` is the character just before `s`, if any)? -/
def tokenAtHead (tok : Str) (prev : Option Char) (s : Str) : Bool :=
  tok.isPrefixOf s
    && (match prev with | some p => !isWordChar p | none => true)
    && (match s.drop tok.length with | [] => true | c :: _ => !isWordChar c)

/-- Scan `s` for an occurrence of `tok` delimited by word boundaries. -/
def hasTokenAux (tok : Str) (prev : Option Char) : Str → Bool
  | [] => false
  | c :: rest => tokenAtHead tok prev (c :: rest) || hasTokenAux tok (some c) rest

/-- `/\b(LOVE|LIKE|MEH)\b/.test s` (case-sensitive, as in the source). -/
def hasBannedUpper (s : Str) : Bool :=
  hasTokenAux (lit "LOVE") none s || hasTokenAux (lit "LIKE") none s
    || hasTokenAux (lit "MEH") none s

/-- Case-insensitive occurrence of `tok` at the head of `s` with word
boundaries (used only to state the original claim C2). -/
def tokenAtHeadCI (tok : Str) (prev : Option Char) (s : Str) : Bool :=
  isPrefixOfCI tok s
    && (match prev with | some p => !isWordChar p | none => true)
    && (match s.drop tok.length with | [] => true | c :: _ => !isWordChar c)

/-- Case-insensitive scan for a word-bounded occurrence of `tok`. -/
def hasTokenCIAux (tok : Str) (prev : Option Char) : Str → Bool
  | [] => false
  | c :: rest => tokenAtHeadCI tok prev (c :: rest) || hasTokenCIAux tok (some c) rest

/-- `/\b(LOVE|LIKE|MEH)\b/i.test s`: the banned-word test as the specification
states it (case-insensitive) — used only to state claim C2. -/
def hasBannedCI (s : Str) : Bool :=
  hasTokenCIAux (lit "LOVE") none s || hasTokenCIAux (lit "LIKE") none s
    || hasTokenCIAux (lit "MEH") none s

/-! ## Sentence segmentation: `split(/(?<=[.?!])\s+/)` -/

/-- Split on maximal whitespace runs preceded by `.`, `?` or `!`.  `acc` holds
the reversed current segment (so `acc.head?` is the previous character) and
`run` is true while consuming the matched whitespace run: a separator match is
a maximal whitespace run whose look-behind character is `.`, `?` or `!`, and
a match ending the string leaves a final empty segment, as `split` does. -/
def splitSentencesAux (acc : Str) (run : Bool) : Str → List Str
  | [] => [acc.reverse]
  | c :: rest =>
    if run then
      if jsWS c then splitSentencesAux acc true rest
      else splitSentencesAux [c] false rest
    else if jsWS c && (acc.head? = some '.' || acc.head? = some '?' || acc.head? = some '!') then
      acc.reverse :: splitSentencesAux [] true rest
    else
      splitSentencesAux (c :: acc) false rest

/-- The list of sentence-like segments of `s`. -/
def splitSentences (s : Str) : List Str := splitSentencesAux [] false s

/-- Number of segments that are non-empty after trimming. -/
def sentenceCount (s : Str) : Nat :=
  ((splitSentences s).filter fun seg => !(jsTrim seg).isEmpty).length

/-! ## Output validators (`spotlight-ai.ts`, Validators section)

`validateLLMRecommendations` runs the shape check first; the remaining
validators therefore only ever see entries with a string `museumId`, a numeric
`score` and a string `rationale`.  The shape check returns those typed entries
(`LLMRec`), which is what the later validators and the ranking pipeline
consume. -/

/-- A recommendation entry after the shape check. -/
structure LLMRec where
  museumId : Str
  score : ℚ
  rationale : Str
deriving DecidableEq, Repr

/-- JS property access `r[k]` for the values produced by `JSON.parse`:
`undefined` (`none`) on any non-object except `null`, whose member access
throws and is handled where it occurs. -/
def jGet (r : JVal) (k : Str) : Option JVal :=
  match r with
  | .obj fields => objGet fields k
  | _ => none

/-- Basic shape presence for one entry.  Member access on a `null` entry
throws a `TypeError` in JS; every thrown value surfaces as `.error`. -/
def checkShape (r : JVal) : Except String LLMRec :=
  match r with
  | .null => .error "TypeError: cannot read properties of null"
  | r =>
    match jGet r (lit "museumId") with
    | some (.str m) =>
      if (jsTrim m).isEmpty then
        .error "Validator: each recommendation must include a non-empty museumId."
      else
        match jGet r (lit "score") with
        | some (.num q) =>
          match jGet r (lit "rationale") with
          | some (.str rat) =>
            if (jsTrim rat).isEmpty then .error "Validator: recommendation missing rationale."
            else .ok ⟨m, q, rat⟩
          | _ => .error "Validator: recommendation missing rationale."
        | _ => .error "Validator: recommendation missing numeric score."
    | _ => .error "Validator: each recommendation must include a non-empty museumId."

/-- Loop of `validateNoDuplicatesAndOnlyUnseen` with its `seen` accumulator. -/
def vNoDupAux (unseen : List Str) (seen : List Str) : List LLMRec → Except String Unit
  | [] => .ok ()
  | r :: rest =>
    if !unseen.contains r.museumId then
      .error "Validator: museumId is not in the allowed unseen candidate set."
    else if seen.contains r.museumId then
      .error "Validator: duplicate recommendation for museumId."
    else vNoDupAux unseen (r.museumId :: seen) rest

/-- `validateNoDuplicatesAndOnlyUnseen`. -/
def validateNoDuplicatesAndOnlyUnseen (recs : List LLMRec) (unseen : List Str) :
    Except String Unit :=
  vNoDupAux unseen [] recs

/-- `validateScoreAndPercentAgreement`.  (`Number.isFinite` holds of every
rational denoted by a JSON numeral, so only the range tests remain.) -/
def validateScoreAndPercentAgreement : List LLMRec → Except String Unit
  | [] => .ok ()
  | r :: rest =>
    if r.score < 0 ∨ 1 < r.score then .error "Validator: score out of range."
    else
      match matchPctMarker r.rationale with
      | none => .error "Validator: rationale must begin with a percent-match marker."
      | some (nn, _) =>
        if 100 < nn then .error "Validator: percent out of range."
        else if 10 < ((nn : ℤ) - jsRound (r.score * 100)).natAbs then
          .error "Validator: percent disagrees with score by more than 10."
        else validateScoreAndPercentAgreement rest

/-- `r.rationale.replace(/^\(\d{1,3}%\s*match\)\s+/i, '').trim()`. -/
def strippedRationale (s : Str) : Str :=
  match matchPctMarker s with
  | some (_, rest) => jsTrim rest
  | none => jsTrim s

/-- `validateRationaleRules`. -/
def validateRationaleRules : List LLMRec → Except String Unit
  | [] => .ok ()
  | r :: rest =>
    let rationale := strippedRationale r.rationale
    if rationale.isEmpty then .error "Validator: empty rationale after percent marker."
    else if hasBannedUpper rationale then
      .error "Validator: rationale must not use literal uppercase LOVE/LIKE/MEH."
    else if 3 < sentenceCount rationale then .error "Validator: rationale exceeds 3 sentences."
    else validateRationaleRules rest

/-- `obj.recommendations` when it is an array.  A falsy parse result (`null`,
`false`, `0`, the empty string) can never be an object, so the source test
`!obj || !Array.isArray(obj.recommendations)` is exactly `none` here. -/
def recommendationsArr (v : JVal) : Option (List JVal) :=
  match v with
  | .obj fields =>
    match objGet fields (lit "recommendations") with
    | some (.arr xs) => some xs
    | _ => none
  | _ => none

/-- `raw.match(/{[\s\S]*}/)`: the left-most greedy match runs from the first
opening brace to the last closing brace of the whole text. -/
def braceExtract (raw : Str) : Option Str :=
  let t := raw.dropWhile fun c => decide (c ≠ '{')
  match t with
  | [] => none
  | _ =>
    let kept := (t.reverse.dropWhile fun c => decide (c ≠ '}')).reverse
    if kept.isEmpty then none else some kept

/-- `parseLLMJson`: direct `JSON.parse`; on any failure inside the `try` block
(syntax error or missing `recommendations` array) fall back to the greedy
brace-delimited substring.  A syntax error in the second parse propagates. -/
def parseLLMJson (raw : Str) : Except String JVal :=
  let direct : Option JVal :=
    match jsonParse raw with
    | some v => if (recommendationsArr v).isSome then some v else none
    | none => none
  match direct with
  | some v => .ok v
  | none =>
    match braceExtract raw with
    | none => .error "Failed to parse LLM output"
    | some sub =>
      match jsonParse sub with
      | none => .error "SyntaxError: unexpected token in JSON"
      | some v =>
        if (recommendationsArr v).isSome then .ok v
        else .error "malformed recommendations block"

/-- `validateLLMRecommendations`: ordered checks, first failure aborts.  On
success it returns the entries in order, with their validated types. -/
def validateLLMRecommendations (parsed : JVal) (unseen : List Str) :
    Except String (List LLMRec) :=
  match recommendationsArr parsed with
  | none => .error "Validator: missing recommendations array."
  | some rs =>
    if rs.isEmpty then .error "Validator: empty recommendations set from LLM."
    else
      match rs.mapM checkShape with
      | .error e => .error e
      | .ok typed =>
        match validateNoDuplicatesAndOnlyUnseen typed unseen with
        | .error e => .error e
        | .ok _ =>
          match validateScoreAndPercentAgreement typed with
          | .error e => .error e
          | .ok _ =>
            match validateRationaleRules typed with
            | .error e => .error e
            | .ok _ => .ok typed

/-! ## Prompt construction (`buildPromptFromTasteSignals`)

The template is deterministic; `JSON.stringify(_, null, 2)` is modelled for
the two shapes it is applied to (an array of flat two-field objects and an
array of strings). -/

/-- Lower-case hexadecimal digit. -/
def hexDigit (n : Nat) : Char :=
  if n < 10 then Char.ofNat (48 + n) else Char.ofNat (87 + n)

/-- Hex digits of `n`, most significant first; `fuel` bounds the digit count
(`8` suffices for every 32-bit value fed to it). -/
def toHexAux : Nat → Nat → Str
  | 0, _ => []
  | _ + 1, 0 => []
  | fuel + 1, n => toHexAux fuel (n / 16) ++ [hexDigit (n % 16)]

/-- `(n >>> 0).toString(16)` for 32-bit `n`. -/
def toHex (n : Nat) : Str := if n = 0 then ['0'] else toHexAux 8 n

/-- `simpleHash`: the 32-bit `h*31 + charCode` fold.  `(h*31+c)|0` followed by
a final `>>> 0` is exactly the fold taken modulo `2^32`. -/
def simpleHash (s : Str) : Str :=
  'h' :: toHex (s.foldl (fun h c => (h * 31 + c.toNat) % 4294967296) 0)

/-- JSON string escaping as in `JSON.stringify`. -/
def jsonEscChar (c : Char) : Str :=
  if c = '"' then ['\\', '"']
  else if c = '\\' then ['\\', '\\']
  else if c = '\x08' then lit "\\b"
  else if c = '\x0c' then lit "\\f"
  else if c = '\n' then lit "\\n"
  else if c = '\r' then lit "\\r"
  else if c = '\t' then lit "\\t"
  else if c.toNat < 32 then lit "\\u00" ++ [hexDigit (c.toNat / 16), hexDigit (c.toNat % 16)]
  else [c]

/-- A quoted JSON string literal. -/
def jsonQuote (s : Str) : Str :=
  '"' :: s.foldr (fun c acc => jsonEscChar c ++ acc) ['"']

/-- Concatenate with a separator. -/
def joinSep (sep : Str) : List Str → Str
  | [] => []
  | [x] => x
  | x :: y :: rest => x ++ sep ++ joinSep sep (y :: rest)

/-- `JSON.stringify(xs, null, 2)` for an array of strings. -/
def stringifyStrList (xs : List Str) : Str :=
  match xs with
  | [] => lit "[]"
  | _ =>
    lit "[\n" ++ joinSep (lit ",\n") (xs.map fun s => lit "  " ++ jsonQuote s) ++ lit "\n]"

/-- The literal spelling of a taste tier. -/
def tasteLit : Taste → Str
  | .LOVE => lit "LOVE"
  | .LIKE => lit "LIKE"
  | .MEH => lit "MEH"

/-- `JSON.stringify(tastePayload, null, 2)` for the
`{ museumId, taste }` payload rows. -/
def stringifyTastePayload (ts : List TasteSignalRow) : Str :=
  match ts with
  | [] => lit "[]"
  | _ =>
    lit "[\n"
      ++ joinSep (lit ",\n")
        (ts.map fun t =>
          lit "  \x7b\n    \"museumId\": " ++ jsonQuote t.museum
            ++ lit ",\n    \"taste\": " ++ jsonQuote (tasteLit t.taste) ++ lit "\n  \x7d")
      ++ lit "\n]"

/-- JS decimal rendering of the integer `k` interpolated into the template. -/
def intToStr (k : ℤ) : Str := (toString k).toList

/-- `buildPromptFromTasteSignals`: the template literal, then `.trim()`. -/
def buildPromptFromTasteSignals (tastes : List TasteSignalRow) (candidates : List Str)
    (k : ℤ) : Str :=
  jsTrim
    (lit "\nYou are a museum recommendation assistant.\n\nSelect up to "
      ++ intToStr k
      ++ lit " museums from CANDIDATES that best match the user\x27s TASTE_SIGNALS.\nDo NOT include any museum already present in TASTE_SIGNALS.\n\nSCORING RUBRIC (must follow):\n1) Map user tastes to weights:\n   - LOVE → 1.0\n   - LIKE → 0.6\n   - MEH  → 0.2\n2) For each candidate, estimate a similarity in [0,1] to each rated museum.\n   Similarity is based on publicly known characteristics such as:\n   collections (e.g., contemporary, old masters, photography), era (modern/postwar),\n   media (sculpture/painting/installation), curatorial program (experimental vs. encyclopedic).\n   If uncertain, keep similarity modest (≤0.5). Do NOT invent facts.\n3) Compute raw match:\n      raw = ( Σ_i weight(taste_i) * similarity(candidate, rated_i) ) / ( Σ_i weight(taste_i) )\n4) Penalize strong resemblance to low-interest museums:\n   Let maxMEH = max similarity to any museum that the user was lukewarm on (MEH).\n   final = raw - 0.3 * max(0, maxMEH - 0.6)   // soft penalty for high similarity to MEH\n5) Clamp final score to [0,1]. Use this as \"score\".\n6) Rank candidates by score (desc) and return the top "
      ++ intToStr k
      ++ lit ".\n\nRATIONALE POLICY:\n- For each recommendation, write a concise rationale of at most 2 sentences.\n- Prepend the rationale with \"(NN% match) \" where NN = round(score * 100).\n- Do NOT use the literal words \"LOVE\", \"LIKE\", or \"MEH\" in the rationale; use natural phrasing (e.g., \"you adored\", \"you enjoyed\", \"you were lukewarm on\").\n- Do NOT mention user location or neighborhood in the rationale.\n- When possible, cite at least one rated museum by name to explain the match.\n- Include at least one concrete attribute or program characteristic if known (e.g., \"postwar sculpture focus\", \"rotating contemporary photography shows\"). Do NOT invent facts; keep general if unsure.\n\nOUTPUT FORMAT (strict JSON only; no prose, no trailing commas):\n\x7b\n  \"recommendations\": [\n    \x7b \"museumId\": \"<string-from-CANDIDATES>\", \"score\": <number between 0 and 1>, \"rationale\": \"<starts with (NN% match) and totals <= 2 sentences>\" \x7d\n  ]\n\x7d\n\nTASTE_SIGNALS (JSON):\n"
      ++ stringifyTastePayload tastes
      ++ lit "\n\nCANDIDATES (JSON array of museumIds):\n"
      ++ stringifyStrList candidates
      ++ lit "\n")

/-! ## The recommend operation (`SpotlightAI.llmRecommend`)

The outcome of `await this.llm.executeLLM(prompt)` is an oracle parameter
`llmResult` (text or thrown error); the `Nat` component of the result counts
how many times that line executed (0 on the short-circuit paths, 1 otherwise).
Every thrown error surfaces as `.error` with the store component carrying the
store exactly as it was at the throw point. -/

/-- `rated`: the museums carrying a taste signal for `user`
(`new Set(tasteSignals.map(t => t.museum))`; set membership is list
membership). -/
def ratedOf (st : SpotState) (user : Str) : List Str :=
  (st.TasteSignals user).map fun t => t.museum

/-- `unseen`: the candidates without a taste signal. -/
def unseenOf (st : SpotState) (user : Str) (candidates : List Str) : List Str :=
  candidates.filter fun m => !(ratedOf st user).contains m

/-- Intermediate entries of the `top` pipeline (museum, trimmed rationale,
clamped score). -/
structure TopEntry where
  museum : Str
  rationale : Str
  score : ℚ
deriving DecidableEq, Repr

/-- `llmRecommend`.  Returns (store after the call, number of external LLM
calls, result or thrown error). -/
def llmRecommend (st : SpotState) (user : Str) (k : ℤ) (candidates : List Str)
    (llmResult : Except String Str) (now : Nat) (modelVersion : Option Str) :
    SpotState × Nat × Except String (List (Str × Str)) :=
  if k < 1 then (st, 0, .error "k must be >= 1")
  else
    let tasteSignals := st.TasteSignals user
    if tasteSignals.isEmpty then
      ({ st with Recommendations := setMap st.Recommendations user [] }, 0, .ok [])
    else
      let unseen := unseenOf st user candidates
      if unseen.isEmpty then
        ({ st with Recommendations := setMap st.Recommendations user [] }, 0, .ok [])
      else
        match llmResult with
        | .error e => (st, 1, .error e)
        | .ok raw =>
          match parseLLMJson raw with
          | .error e => (st, 1, .error e)
          | .ok parsed =>
            match validateLLMRecommendations parsed unseen with
            | .error e => (st, 1, .error e)
            | .ok typed =>
              let mv := modelVersion.getD (lit "gemini-2.5-flash-lite")
              let prompt := buildPromptFromTasteSignals tasteSignals unseen k
              let pHash := simpleHash prompt
              -- `.filter(isValidRec)` is the identity on shape-validated
              -- entries (museumId and rationale are strings), so the pipeline
              -- starts from the typed entries in model order.
              let top :=
                (typed.map fun rec =>
                    (⟨rec.museumId, jsTrim rec.rationale, clamp01 rec.score⟩ : TopEntry)).filter
                  fun r => unseen.contains r.museum
              let top := (sortByScoreDesc TopEntry.score top).take k.toNat
              let rows := top.map fun t =>
                (⟨user, t.museum, t.score, t.rationale, now, mv, pHash⟩ : RecommendationRow)
              ({ st with Recommendations := setMap st.Recommendations user rows }, 1,
                .ok (top.map fun t => (t.museum, t.rationale)))

/-- `SpotlightAI.getRecommendations`: read-only top-`max(1,k)` by score
descending; no LLM parameter at all (it cannot make an external call). -/
def getRecommendations (st : SpotState) (user : Str) (k : ℤ) : List (Str × Str) :=
  let rows := st.Recommendations user
  ((sortByScoreDesc RecommendationRow.score rows).take (max 1 k).toNat).map fun r =>
    (r.museum, r.rationale)

/-- `SpotlightAI.refreshOnRatingChange` delegates to `llmRecommend`. -/
def refreshOnRatingChange (st : SpotState) (user : Str) (defaultK : ℤ)
    (candidates : List Str) (llmResult : Except String Str) (now : Nat) :
    SpotState × Nat × Except String (List (Str × Str)) :=
  llmRecommend st user defaultK candidates llmResult now none

/-- States reachable from the empty store by the public operations
(`getRecommendations` reads only and does not change the state). -/
inductive Reachable : SpotState → Prop where
  | init : Reachable emptySpotState
  | record (st : SpotState) (u m : Str) (t : Taste) (now : Nat) :
      Reachable st → Reachable (recordMuseumTaste st u m t now)
  | clear (st : SpotState) (u m : Str) :
      Reachable st → Reachable (clearMuseumTaste st u m)
  | recommend (st : SpotState) (u : Str) (k : ℤ) (cands : List Str)
      (llmResult : Except String Str) (now : Nat) (mv : Option Str) :
      Reachable st → Reachable (llmRecommend st u k cands llmResult now mv).1

/-! ## The resilient LLM wrapper (`GeminiLLM.executeLLM`, memo + retry file)

`call n` is an oracle giving the outcome of the `n`-th `model.generateContent`
attempt (1-based): the response text, or the thrown error object.  The timeout
mechanism (`AbortController`) surfaces through the thrown error observed by
the classifier, so it needs no separate model.  `Date.now()` is the single
instant `now` of the invocation.  The `while (true)` loop carries explicit
fuel; the theorems show any fuel of at least `MAX_RETRIES + 2` behaves
identically, which is the termination claim. -/

/-- `MEMO_TTL_MS`. -/
def MEMO_TTL_MS : Nat := 15000

/-- `MAX_RETRIES`. -/
def MAX_RETRIES : Nat := 2

/-- `BACKOFF_MS`. -/
def BACKOFF_MS : Nat := 500

/-- A thrown SDK error: its `name`, `message`, and the `status` / `code`
fields read by the classifier (absent fields are empty strings, which are
falsy, as in `err?.status || err?.code || ''`). -/
structure JSError where
  name : Str
  message : Str
  status : Str
  code : Str
deriving DecidableEq, Repr

/-- `String(err?.status || err?.code || '').toUpperCase()`. -/
def errCode (e : JSError) : Str :=
  (if e.status.isEmpty then e.code else e.status).map charUpper

/-- `err?.name === 'AbortError' || /abort|timeout/i.test(msg)`. -/
def isTimeoutErr (e : JSError) : Bool :=
  e.name = lit "AbortError" || hasSubstrCI (lit "abort") e.message
    || hasSubstrCI (lit "timeout") e.message

/-- `isTimeout || /(429|500|502|503|504)/.test(code)`. -/
def isTransientErr (e : JSError) : Bool :=
  isTimeoutErr e || hasSubstr (lit "429") (errCode e) || hasSubstr (lit "500") (errCode e)
    || hasSubstr (lit "502") (errCode e) || hasSubstr (lit "503") (errCode e)
    || hasSubstr (lit "504") (errCode e)

/-- The classification label of a thrown error. -/
def errLabel (e : JSError) : Str :=
  if isTimeoutErr e then lit "LLM_TIMEOUT"
  else if isTransientErr e then
    lit "LLM_TRANSIENT_" ++ (if (errCode e).isEmpty then lit "UNKNOWN" else errCode e)
  else lit "LLM_ERROR"

/-- The message thrown out of the loop.  (The `String(err?.message || err)`
fallback for an empty message is not modelled; only the label matters to any
stated property.) -/
def errThrown (e : JSError) : Str := errLabel e ++ lit ": " ++ e.message

/-- The retry loop: attempt counter, current delay, and the sleeps performed
so far (accumulated reversed).  Returns (attempts, sleeps, outcome). -/
def retryLoop (call : Nat → Except JSError Str) :
    Nat → Nat → Nat → List Nat → Nat × List Nat × Except Str Str
  | 0, attempt, _, sleeps => (attempt, sleeps.reverse, .error (lit "FUEL_EXHAUSTED"))
  | fuel + 1, attempt, delay, sleeps =>
    let attempt := attempt + 1
    match call attempt with
    | .ok text => (attempt, sleeps.reverse, .ok text)
    | .error err =>
      if MAX_RETRIES + 1 < attempt || !isTransientErr err then
        (attempt, sleeps.reverse, .error (errThrown err))
      else
        retryLoop call fuel attempt (min (delay * 2) 4000) (delay :: sleeps)

/-- The process-wide memo: digest ↦ (at, text). -/
abbrev Memo := List (Str × Nat × Str)

/-- `promptKey`: the sha256 digest is modelled by the digested content itself,
`model ++ "::" ++ prompt` (the digest is injective up to hash collisions). -/
def promptKey (modelName prompt : Str) : Str := modelName ++ lit "::" ++ prompt

/-- `memo.get`. -/
def memoFind (m : Memo) (k : Str) : Option (Nat × Str) :=
  match m with
  | [] => none
  | (k2, v) :: rest => if k2 = k then some v else memoFind rest k

/-- `memo.delete`. -/
def memoErase (m : Memo) (k : Str) : Memo :=
  m.filter fun e => decide (e.1 ≠ k)

/-- `memo.set`: overwrite in place or append. -/
def memoSet (m : Memo) (k : Str) (v : Nat × Str) : Memo :=
  match m with
  | [] => [(k, v)]
  | (k2, v2) :: rest => if k2 = k then (k, v) :: rest else (k2, v2) :: memoSet rest k v

/-- The cache-miss path of `executeLLM`: run the retry loop and memoize a
success (`setMemo key text` with `at := now`). -/
def executeLLMRun (memo : Memo) (now : Nat) (key : Str)
    (call : Nat → Except JSError Str) (fuel : Nat) :
    Memo × Nat × List Nat × Except Str Str :=
  match retryLoop call fuel 0 BACKOFF_MS [] with
  | (attempts, sleeps, .ok text) => (memoSet memo key (now, text), attempts, sleeps, .ok text)
  | (attempts, sleeps, .error e) => (memo, attempts, sleeps, .error e)

/-- `executeLLM` (memoized wrapper): cache lookup with lazy TTL expiry
(`getMemo`), then `if (cached) return cached` — a JavaScript truthiness test,
so a cached EMPTY text is falsy and falls through to the bounded retry loop
(without the expiry deletion).  Returns (memo after the call, number of
external attempts, sleeps performed, text or thrown error). -/
def executeLLM (memo : Memo) (now : Nat) (prompt : Str) (modelName : Str)
    (call : Nat → Except JSError Str) (fuel : Nat) :
    Memo × Nat × List Nat × Except Str Str :=
  let key := promptKey modelName prompt
  match memoFind memo key with
  | some (at_, text) =>
    if MEMO_TTL_MS < now - at_ then
      executeLLMRun (memoErase memo key) now key call fuel
    else if text.isEmpty then
      executeLLMRun memo now key call fuel
    else (memo, 0, [], .ok text)
  | none => executeLLMRun memo now key call fuel

/-! ## Properties of the stable descending sort -/
theorem insertScoreDesc_perm {α : Type} (f : α → ℚ) (r : α) (l : List α) :
    List.Perm (insertScoreDesc f r l) (r :: l) := by
  induction l with
  | nil => exact List.Perm.refl _
  | cons x xs ih =>
    by_cases h : f x ≤ f r
    · rw [insertScoreDesc, if_pos h]
    · rw [insertScoreDesc, if_neg h]
      exact (ih.cons x).trans (List.Perm.swap r x xs)

theorem sortByScoreDesc_perm {α : Type} (f : α → ℚ) (l : List α) :
    List.Perm (sortByScoreDesc f l) l := by
  induction l with
  | nil => exact List.Perm.refl _
  | cons x xs ih =>
    exact (insertScoreDesc_perm f x (sortByScoreDesc f xs)).trans (ih.cons x)

theorem insertScoreDesc_sorted {α : Type} (f : α → ℚ) (r : α) (l : List α)
    (h : List.Pairwise (fun a b => f b ≤ f a) l) :
    List.Pairwise (fun a b => f b ≤ f a) (insertScoreDesc f r l) := by
  induction l with
  | nil => simp [insertScoreDesc]
  | cons x xs ih =>
    rcases List.pairwise_cons.mp h with ⟨hx, hxs⟩
    by_cases hc : f x ≤ f r
    · rw [insertScoreDesc, if_pos hc]
      refine List.pairwise_cons.mpr ⟨?_, h⟩
      intro y hy
      rcases List.mem_cons.mp hy with rfl | hy2
      · exact hc
      · exact le_trans (hx y hy2) hc
    · rw [insertScoreDesc, if_neg hc]
      refine List.pairwise_cons.mpr ⟨?_, ih hxs⟩
      intro y hy
      have hmem := (insertScoreDesc_perm f r xs).mem_iff.mp hy
      rcases List.mem_cons.mp hmem with rfl | hy2
      · exact le_of_lt (lt_of_not_le hc)
      · exact hx y hy2

theorem sortByScoreDesc_sorted {α : Type} (f : α → ℚ) (l : List α) :
    List.Pairwise (fun a b => f b ≤ f a) (sortByScoreDesc f l) := by
  induction l with
  | nil => simp [sortByScoreDesc]
  | cons x xs ih => exact insertScoreDesc_sorted f x _ ih

theorem filter_insertScoreDesc {α : Type} (f : α → ℚ) (r : α) (l : List α) (q : ℚ) :
    (insertScoreDesc f r l).filter (fun a => decide (f a = q)) =
      if f r = q then r :: l.filter (fun a => decide (f a = q))
      else l.filter (fun a => decide (f a = q)) := by
  induction l with
  | nil => by_cases h : f r = q <;> simp [insertScoreDesc, h]
  | cons x xs ih =>
    by_cases hc : f x ≤ f r
    · rw [insertScoreDesc, if_pos hc]
      by_cases h : f r = q
      · by_cases hx : f x = q <;> simp [h, hx, List.filter]
      · by_cases hx : f x = q <;> simp [h, hx, List.filter]
    · rw [insertScoreDesc, if_neg hc]
      by_cases h : f r = q
      · have hx : ¬ f x = q := fun hxq => hc (le_of_eq (hxq.trans h.symm))
        simp [List.filter, h, hx, ih]
      · by_cases hx : f x = q <;> simp [List.filter, h, hx, ih]

theorem sortByScoreDesc_stable {α : Type} (f : α → ℚ) (l : List α) (q : ℚ) :
    (sortByScoreDesc f l).filter (fun a => decide (f a = q)) =
      l.filter (fun a => decide (f a = q)) := by
  induction l with
  | nil => rfl
  | cons x xs ih =>
    show (insertScoreDesc f x (sortByScoreDesc f xs)).filter _ = _
    rw [filter_insertScoreDesc]
    by_cases h : f x = q <;> simp [h, ih, List.filter]

/-! ## Claims C3, C5, C10 -/
/-- C3: atomicity on failure.  Whenever llmRecommend terminates with a thrown
error (invalid k, LLM invocation failure, parse failure, or any validation
failure), the Recommendations map is unchanged from its state before the
call, for every user. -/
theorem llmRecommend_error_leaves_store (st : SpotState) (user : Str) (k : ℤ)
    (candidates : List Str) (llmResult : Except String Str) (now : Nat)
    (mv : Option Str) (e : String)
    (h : (llmRecommend st user k candidates llmResult now mv).2.2 = Except.error e) :
    (llmRecommend st user k candidates llmResult now mv).1.Recommendations
      = st.Recommendations := by
  revert h
  unfold llmRecommend
  by_cases hk : k < 1
  · rw [if_pos hk]; intro _; rfl
  · rw [if_neg hk]
    by_cases h1 : (st.TasteSignals user).isEmpty
    · rw [if_pos h1]; intro h; cases h
    · rw [if_neg h1]
      by_cases h2 : (unseenOf st user candidates).isEmpty
      · rw [if_pos h2]; intro h; cases h
      · rw [if_neg h2]
        cases llmResult with
        | error e2 => intro _; rfl
        | ok raw =>
          cases hp : parseLLMJson raw with
          | error e2 => simp only [hp]; intro _; trivial
          | ok parsed =>
            simp only [hp]
            cases hv : validateLLMRecommendations parsed (unseenOf st user candidates) with
            | error e2 => simp only [hv]; intro _; trivial
            | ok typed => simp only [hv]; intro h; cases h

/-- C5: cold-start short-circuit.  For a user with no TasteSignals (or an
unseen candidate set that is empty after removing rated museums) and any
k at least 1, llmRecommend returns an empty sequence, performs zero external
LLM calls, and commits an empty recommendation set for the user, as a
success. -/
theorem llmRecommend_cold_start (st : SpotState) (user : Str) (k : ℤ)
    (candidates : List Str) (llmResult : Except String Str) (now : Nat) (mv : Option Str)
    (hk : 1 ≤ k)
    (hcold : st.TasteSignals user = [] ∨ unseenOf st user candidates = []) :
    llmRecommend st user k candidates llmResult now mv =
      ({ st with Recommendations := setMap st.Recommendations user [] }, 0, Except.ok []) := by
  unfold llmRecommend
  have hk2 : ¬ k < 1 := by omega
  rw [if_neg hk2]
  rcases hcold with hc | hc
  · rw [if_pos (by simp [hc])]
  · by_cases h1 : (st.TasteSignals user).isEmpty
    · rw [if_pos h1]
    · rw [if_neg h1, if_pos (by simp [hc])]

/-- C10: getRecommendations returns the top max(1,k) stored rows by score
descending (fewer if the store holds fewer), reading through a stable
descending sort of the stored rows; in particular for k at most 0 with a
non-empty stored set it returns exactly one row, a row of maximal score.  It
takes no LLM oracle and, being a pure function of the state, modifies
nothing. -/
theorem getRecommendations_topk (st : SpotState) (user : Str) (k : ℤ) :
    getRecommendations st user k =
        ((sortByScoreDesc RecommendationRow.score (st.Recommendations user)).take
            (max 1 k).toNat).map (fun r => (r.museum, r.rationale))
      ∧ (getRecommendations st user k).length
          = min (max 1 k).toNat (st.Recommendations user).length
      ∧ List.Pairwise (fun a b => b.score ≤ a.score)
          (sortByScoreDesc RecommendationRow.score (st.Recommendations user))
      ∧ List.Perm (sortByScoreDesc RecommendationRow.score (st.Recommendations user))
          (st.Recommendations user)
      ∧ (∀ p ∈ getRecommendations st user k, ∃ r ∈ st.Recommendations user,
          p = (r.museum, r.rationale))
      ∧ (k ≤ 0 → st.Recommendations user ≠ [] →
          ∃ r ∈ st.Recommendations user,
            getRecommendations st user k = [(r.museum, r.rationale)]
              ∧ ∀ r2 ∈ st.Recommendations user, r2.score ≤ r.score) := by
  refine ⟨rfl, ?_, sortByScoreDesc_sorted _ _, sortByScoreDesc_perm _ _, ?_, ?_⟩
  · show (((sortByScoreDesc RecommendationRow.score (st.Recommendations user)).take
        (max 1 k).toNat).map (fun r => (r.museum, r.rationale))).length = _
    rw [List.length_map, List.length_take,
      (sortByScoreDesc_perm RecommendationRow.score (st.Recommendations user)).length_eq]
  · intro p hp
    have hp2 := List.mem_map.mp hp
    rcases hp2 with ⟨r, hr, rfl⟩
    have hr2 : r ∈ sortByScoreDesc RecommendationRow.score (st.Recommendations user) :=
      List.take_subset _ _ hr
    exact ⟨r, (sortByScoreDesc_perm _ _).mem_iff.mp hr2, rfl⟩
  · intro hk0 hne
    have hmax : (max 1 k).toNat = 1 := by omega
    have hlen : (sortByScoreDesc RecommendationRow.score (st.Recommendations user)) ≠ [] := by
      intro hnil
      have := (sortByScoreDesc_perm RecommendationRow.score (st.Recommendations user)).length_eq
      rw [hnil] at this
      exact hne (List.eq_nil_of_length_eq_zero this.symm)
    rcases List.exists_cons_of_ne_nil hlen with ⟨r, t, hrt⟩
    refine ⟨r, ?_, ?_, ?_⟩
    · exact (sortByScoreDesc_perm _ _).mem_iff.mp (by rw [hrt]; exact List.mem_cons_self r t)
    · show ((sortByScoreDesc RecommendationRow.score (st.Recommendations user)).take
        (max 1 k).toNat).map (fun r => (r.museum, r.rationale)) = _
      rw [hmax, hrt]
      rfl
    · intro r2 hr2
      have hr2s : r2 ∈ sortByScoreDesc RecommendationRow.score (st.Recommendations user) :=
        (sortByScoreDesc_perm _ _).mem_iff.mpr hr2
      rw [hrt] at hr2s
      rcases List.mem_cons.mp hr2s with rfl | hr2t
      · exact le_refl _
      · have hsorted := sortByScoreDesc_sorted RecommendationRow.score (st.Recommendations user)
        rw [hrt] at hsorted
        exact (List.pairwise_cons.mp hsorted).1 r2 hr2t

theorem llmRecommend_error_leaves_store_witness :
    (llmRecommend emptySpotState (lit "u") 0 [] (Except.error "x") 0 none).1.Recommendations
      = emptySpotState.Recommendations :=
  llmRecommend_error_leaves_store emptySpotState (lit "u") 0 [] (Except.error "x") 0 none
    "k must be >= 1" rfl

theorem llmRecommend_cold_start_witness :
    llmRecommend emptySpotState (lit "u1") 3 [lit "A", lit "B", lit "C"]
        (Except.error "outage") 5 none
      = ({ emptySpotState with
            Recommendations := setMap emptySpotState.Recommendations (lit "u1") [] },
          0, Except.ok []) :=
  llmRecommend_cold_start _ _ _ _ _ _ _ (by decide) (Or.inl rfl)

def stWitC10 : SpotState :=
  ⟨fun _ => [],
    setMap (fun _ => []) (lit "u")
      [⟨lit "u", lit "A", 1/2, lit "(50% match) Quiet galleries.", 0, lit "m", lit "h"⟩]⟩

theorem getRecommendations_topk_witness :
    ∃ r ∈ stWitC10.Recommendations (lit "u"),
      getRecommendations stWitC10 (lit "u") (-1) = [(r.museum, r.rationale)]
        ∧ ∀ r2 ∈ stWitC10.Recommendations (lit "u"), r2.score ≤ r.score :=
  (getRecommendations_topk stWitC10 (lit "u") (-1)).2.2.2.2.2 (by decide) (by decide)

/-! ## Claims C1 and C2 -/
/-- The invariant claimed by C1 as stated: no stored recommendation row for
any user carries a museum among that user's taste-signal museums. -/
def noRatedRecommendation (st : SpotState) : Prop :=
  ∀ u : Str, ∀ row ∈ st.Recommendations u, ∀ ts ∈ st.TasteSignals u, ts.museum ≠ row.museum

/-- The model answer used in concrete successful runs. -/
def rawOkB : Str :=
  lit "\x7b\"recommendations\":[\x7b\"museumId\":\"B\",\"score\":0.9,\"rationale\":\"(90% match) Calm rooms.\"\x7d]\x7d"

def stCE1 : SpotState := recordMuseumTaste emptySpotState (lit "u") (lit "A") Taste.LOVE 0

def stCE2 : SpotState :=
  (llmRecommend stCE1 (lit "u") 1 [lit "B"] (Except.ok rawOkB) 1 none).1

def stCE3 : SpotState := recordMuseumTaste stCE2 (lit "u") (lit "B") Taste.LIKE 2

/-- C1, counterexample to the claim as stated: the no-rated-recommendation
invariant is not preserved by every reachable state.  Rating museum A,
obtaining a validated recommendation for museum B, and then rating B reaches
a state in which the stored row for B collides with the taste signal for
B, because recordMuseumTaste does not invalidate stored recommendations. -/
theorem reachable_rated_recommendation_overlap :
    ¬ (∀ st : SpotState, Reachable st → noRatedRecommendation st) := by
  intro h
  have hreach : Reachable stCE3 :=
    Reachable.record _ _ _ _ _
      (Reachable.recommend _ _ _ _ _ _ _ (Reachable.record _ _ _ _ _ Reachable.init))
  have hinv := h stCE3 hreach
  have h1 : (stCE3.Recommendations (lit "u")).map (fun r => r.museum) = [lit "B"] := by decide
  have h2 : ∃ ts ∈ stCE3.TasteSignals (lit "u"), ts.museum = lit "B" := by decide
  have hB : lit "B" ∈ (stCE3.Recommendations (lit "u")).map (fun r => r.museum) := by
    rw [h1]; exact List.mem_cons_self _ _
  rcases List.mem_map.mp hB with ⟨row, hrow, hmus⟩
  rcases h2 with ⟨ts, hts, htsB⟩
  exact hinv (lit "u") row hrow ts hts (htsB.trans hmus.symm)

/-- Membership in the unseen set excludes rated museums. -/
theorem mem_unseenOf_not_rated (st : SpotState) (user : Str) (candidates : List Str)
    (m : Str) (h : m ∈ unseenOf st user candidates) : m ∉ ratedOf st user := by
  have h2 := (List.mem_filter.mp h).2
  intro hmem
  simp at h2
  exact h2 hmem

/-- C1 amended: immediately after any llmRecommend call that returns
successfully, no stored RecommendationRow for the calling user has a museum
among that user's TasteSignal museums.  (As a standing invariant over all
reachable states the claim fails, because a later recordMuseumTaste for a
recommended museum breaks it; see the counterexample.) -/
theorem llmRecommend_ok_disjoint (st : SpotState) (user : Str) (k : ℤ)
    (candidates : List Str) (llmResult : Except String Str) (now : Nat) (mv : Option Str)
    (res : List (Str × Str))
    (h : (llmRecommend st user k candidates llmResult now mv).2.2 = Except.ok res) :
    ∀ row ∈ (llmRecommend st user k candidates llmResult now mv).1.Recommendations user,
      ∀ ts ∈ (llmRecommend st user k candidates llmResult now mv).1.TasteSignals user,
        ts.museum ≠ row.museum := by
  revert h
  unfold llmRecommend
  by_cases hk : k < 1
  · rw [if_pos hk]; intro h; cases h
  · rw [if_neg hk]
    by_cases h1 : (st.TasteSignals user).isEmpty
    · rw [if_pos h1]
      intro _ row hrow
      simp only [setMap, if_pos rfl] at hrow
      cases hrow
    · rw [if_neg h1]
      by_cases h2 : (unseenOf st user candidates).isEmpty
      · rw [if_pos h2]
        intro _ row hrow
        simp only [setMap, if_pos rfl] at hrow
        cases hrow
      · rw [if_neg h2]
        cases llmResult with
        | error e2 => intro h; cases h
        | ok raw =>
          cases hp : parseLLMJson raw with
          | error e2 => simp only [hp]; intro h; cases h
          | ok parsed =>
            simp only [hp]
            cases hv : validateLLMRecommendations parsed (unseenOf st user candidates) with
            | error e2 => simp only [hv]; intro h; cases h
            | ok typed =>
              simp only [hv]
              intro _ row hrow ts hts
              simp only [setMap, if_pos rfl] at hrow
              rcases List.mem_map.mp hrow with ⟨t, ht, rfl⟩
              have htop : t ∈ sortByScoreDesc TopEntry.score
                  ((typed.map fun rec =>
                      (⟨rec.museumId, jsTrim rec.rationale, clamp01 rec.score⟩ : TopEntry)).filter
                    fun r => (unseenOf st user candidates).contains r.museum) :=
                List.take_subset _ _ ht
              have hfil := (sortByScoreDesc_perm _ _).mem_iff.mp htop
              have hcontains := (List.mem_filter.mp hfil).2
              have hmu : t.museum ∈ unseenOf st user candidates := by
                simpa using hcontains
              have hnot := mem_unseenOf_not_rated st user candidates t.museum hmu
              intro hEq
              apply hnot
              have hts2 : ts.museum ∈ ratedOf st user := List.mem_map.mpr ⟨ts, hts, rfl⟩
              rwa [hEq] at hts2

/-- The prompt of the concrete witness run. -/
def promptCE : Str :=
  buildPromptFromTasteSignals (stCE1.TasteSignals (lit "u"))
    (unseenOf stCE1 (lit "u") [lit "B"]) 1

/-- The row stored by the concrete successful run used as a witness input. -/
def rowCE : RecommendationRow :=
  ⟨lit "u", lit "B", 9/10, lit "(90% match) Calm rooms.", 1,
    lit "gemini-2.5-flash-lite", simpleHash promptCE⟩

/-- The taste signal present in the witness run's store. -/
def tsCE : TasteSignalRow := ⟨lit "u", lit "A", Taste.LOVE, 0⟩

theorem llmRecommend_ok_disjoint_witness :
    rowCE ∈ (llmRecommend stCE1 (lit "u") 1 [lit "B"]
        (Except.ok rawOkB) 1 none).1.Recommendations (lit "u")
      ∧ tsCE ∈ (llmRecommend stCE1 (lit "u") 1 [lit "B"]
          (Except.ok rawOkB) 1 none).1.TasteSignals (lit "u")
      ∧ tsCE.museum ≠ rowCE.museum := by
  have hlist : (llmRecommend stCE1 (lit "u") 1 [lit "B"]
      (Except.ok rawOkB) 1 none).1.Recommendations (lit "u") = [rowCE] := rfl
  have hmem : rowCE ∈ (llmRecommend stCE1 (lit "u") 1 [lit "B"]
      (Except.ok rawOkB) 1 none).1.Recommendations (lit "u") := by
    rw [hlist]; exact List.mem_singleton.mpr rfl
  refine ⟨hmem, by decide, ?_⟩
  exact llmRecommend_ok_disjoint stCE1 (lit "u") 1 [lit "B"] (Except.ok rawOkB) 1 none
    [(lit "B", lit "(90% match) Calm rooms.")] (by rfl) rowCE hmem tsCE (by decide)

/-- The model answer whose rationale says lowercase love. -/
def rawLoveB : Str :=
  lit "\x7b\"recommendations\":[\x7b\"museumId\":\"B\",\"score\":0.9,\"rationale\":\"(90% match) You love art.\"\x7d]\x7d"

/-- C2, counterexample to the claim as stated: a parsed model output whose
rationale contains the lower-case tier word love as a standalone token is
accepted in full by llmRecommend — the banned-vocabulary regex has no
case-insensitive flag, so only the upper-case spellings are rejected. -/
theorem llmRecommend_accepts_lowercase_tier_word :
    hasBannedCI (strippedRationale (lit "(90% match) You love art.")) = true
      ∧ (llmRecommend stCE1 (lit "u") 1 [lit "B"] (Except.ok rawLoveB) 1 none).2.2
          = Except.ok [(lit "B", lit "(90% match) You love art.")] :=
  ⟨by decide, by rfl⟩

/-- If the rationale-rules pass, no surviving entry has an upper-case banned
token in its stripped rationale. -/
theorem validateRationaleRules_ok_no_banned (l : List LLMRec) (u : Unit)
    (h : validateRationaleRules l = Except.ok u) :
    ∀ r ∈ l, hasBannedUpper (strippedRationale r.rationale) = false := by
  induction l with
  | nil => intro r hr; cases hr
  | cons x xs ih =>
    intro r hr
    unfold validateRationaleRules at h
    by_cases h1 : (strippedRationale x.rationale).isEmpty
    · rw [if_pos h1] at h; cases h
    · rw [if_neg h1] at h
      by_cases hb : hasBannedUpper (strippedRationale x.rationale)
      · rw [if_pos hb] at h; cases h
      · rw [if_neg hb] at h
        by_cases h3 : 3 < sentenceCount (strippedRationale x.rationale)
        · rw [if_pos h3] at h; cases h
        · rw [if_neg h3] at h
          rcases List.mem_cons.mp hr with rfl | hr2
          · simpa using hb
          · exact ih h r hr2

/-- C2 amended: if full validation accepts the entries, then no accepted
entry's stripped rationale contains an upper-case LOVE, LIKE or MEH as a
standalone token; equivalently, any entry carrying such an upper-case token
makes validateLLMRecommendations (and hence llmRecommend) fail, accepting no
entry.  Lower-case spellings are not rejected (see the counterexample). -/
theorem validateLLM_ok_no_uppercase_banned (parsed : JVal) (unseen : List Str)
    (typed : List LLMRec)
    (h : validateLLMRecommendations parsed unseen = Except.ok typed) :
    ∀ r ∈ typed, hasBannedUpper (strippedRationale r.rationale) = false := by
  unfold validateLLMRecommendations at h
  cases hrec : recommendationsArr parsed with
  | none => simp only [hrec] at h; cases h
  | some rs =>
    simp only [hrec] at h
    by_cases hemp : rs.isEmpty
    · rw [if_pos hemp] at h; cases h
    · rw [if_neg hemp] at h
      cases hms : rs.mapM checkShape with
      | error e => simp only [hms] at h; cases h
      | ok typed0 =>
        simp only [hms] at h
        cases hd : validateNoDuplicatesAndOnlyUnseen typed0 unseen with
        | error e => simp only [hd] at h; cases h
        | ok u1 =>
          simp only [hd] at h
          cases hs : validateScoreAndPercentAgreement typed0 with
          | error e => simp only [hs] at h; cases h
          | ok u2 =>
            simp only [hs] at h
            cases hrr : validateRationaleRules typed0 with
            | error e => simp only [hrr] at h; cases h
            | ok u3 =>
              simp only [hrr] at h
              injection h with h2
              subst h2
              exact validateRationaleRules_ok_no_banned typed0 u3 hrr

/-- The parsed model output used as the C2 witness input. -/
def parsedOkB : JVal :=
  .obj [(lit "recommendations",
    .arr [.obj [(lit "museumId", .str (lit "B")), (lit "score", .num (9/10)),
      (lit "rationale", .str (lit "(90% match) Calm rooms."))]])]

theorem validateLLM_ok_no_uppercase_banned_witness :
    hasBannedUpper (strippedRationale
      (⟨lit "B", (9:ℚ)/10, lit "(90% match) Calm rooms."⟩ : LLMRec).rationale) = false :=
  validateLLM_ok_no_uppercase_banned parsedOkB [lit "B"]
    [⟨lit "B", (9:ℚ)/10, lit "(90% match) Calm rooms."⟩] (by rfl)
    ⟨lit "B", (9:ℚ)/10, lit "(90% match) Calm rooms."⟩ (by decide)

/-! ## Claims C6 and C7 -/
/-- A server-side 503 failure. -/
def err503 : JSError := ⟨lit "Error", lit "boom", lit "503", []⟩

/-- C6, counterexample to the claim as stated: under a call that always
fails with a transient classification, executeLLM makes 4 attempts, not at
most 1 + MAX_RETRIES = 3, because the loop exits only when the attempt
counter exceeds 1 + MAX_RETRIES after the failure. -/
theorem executeLLM_makes_four_attempts :
    (executeLLM [] 0 (lit "p") (lit "m") (fun _ => Except.error err503) 10).2.1 = 4
      ∧ ¬ ((executeLLM [] 0 (lit "p") (lit "m")
            (fun _ => Except.error err503) 10).2.1 ≤ 1 + MAX_RETRIES) :=
  ⟨by decide, by decide⟩

/-- C6 amended: an executeLLM invocation (cache miss) whose underlying call
always fails with a transient classification makes exactly 2 + MAX_RETRIES
= 4 attempts, sleeping 500, 1000 and 2000 milliseconds between attempts (the
delay doubles from BACKOFF_MS, capped at 4000), terminates for every fuel of
at least 4 with an error labelled LLM_TIMEOUT or LLM_TRANSIENT, and leaves
the memo unchanged; it never loops indefinitely. -/
theorem executeLLM_transient_retry_bound (memo : Memo) (now : Nat)
    (prompt modelName : Str) (errs : Nat → JSError) (fuel : Nat)
    (hmiss : memoFind memo (promptKey modelName prompt) = none)
    (htr : ∀ n, isTransientErr (errs n) = true)
    (hfuel : MAX_RETRIES + 2 ≤ fuel) :
    executeLLM memo now prompt modelName (fun n => Except.error (errs n)) fuel
        = (memo, MAX_RETRIES + 2, [BACKOFF_MS, BACKOFF_MS * 2, BACKOFF_MS * 4],
            Except.error (errThrown (errs (MAX_RETRIES + 2))))
      ∧ ((lit "LLM_TIMEOUT").isPrefixOf (errThrown (errs (MAX_RETRIES + 2))) = true
          ∨ (lit "LLM_TRANSIENT_").isPrefixOf (errThrown (errs (MAX_RETRIES + 2))) = true) := by
  constructor
  · obtain ⟨f, rfl⟩ : ∃ f, fuel = f + 4 := ⟨fuel - 4, by
      have : MAX_RETRIES = 2 := rfl
      omega⟩
    unfold executeLLM
    simp only [hmiss]
    unfold executeLLMRun
    simp only [retryLoop, htr, MAX_RETRIES, BACKOFF_MS]
    norm_num
  · unfold errThrown errLabel
    by_cases ht : isTimeoutErr (errs (MAX_RETRIES + 2))
    · left
      rw [if_pos ht, List.append_assoc]
      exact List.isPrefixOf_iff_prefix.mpr (List.prefix_append _ _)
    · right
      rw [if_neg ht, if_pos (htr _), List.append_assoc, List.append_assoc]
      exact List.isPrefixOf_iff_prefix.mpr (List.prefix_append _ _)

theorem executeLLM_transient_retry_bound_witness :
    executeLLM [] 0 (lit "p") (lit "m") (fun n => Except.error ((fun _ => err503) n)) 10
        = ([], MAX_RETRIES + 2, [BACKOFF_MS, BACKOFF_MS * 2, BACKOFF_MS * 4],
            Except.error (errThrown ((fun _ => err503) (MAX_RETRIES + 2))))
      ∧ ((lit "LLM_TIMEOUT").isPrefixOf (errThrown ((fun _ => err503) (MAX_RETRIES + 2))) = true
          ∨ (lit "LLM_TRANSIENT_").isPrefixOf
              (errThrown ((fun _ => err503) (MAX_RETRIES + 2))) = true) :=
  executeLLM_transient_retry_bound [] 0 (lit "p") (lit "m") (fun _ => err503) 10
    rfl (fun _ => (by decide : isTransientErr err503 = true)) (by decide)

/-- `memo.set` then `memo.get` on the same key. -/
theorem memoFind_memoSet (m : Memo) (k : Str) (v : Nat × Str) :
    memoFind (memoSet m k v) k = some v := by
  induction m with
  | nil => simp [memoSet, memoFind]
  | cons e rest ih =>
    rcases e with ⟨k2, v2⟩
    by_cases h : k2 = k
    · simp [memoSet, memoFind, h]
    · simp only [memoSet, h, ite_false, if_neg h]
      simp [memoFind, h, ih]

/-- A successful miss-path run stores exactly `(now, text)` under the key. -/
theorem executeLLMRun_ok_memo (m : Memo) (now : Nat) (key : Str)
    (call : Nat → Except JSError Str) (fuel : Nat) (m2 : Memo) (a : Nat)
    (s : List Nat) (t : Str)
    (h : executeLLMRun m now key call fuel = (m2, a, s, Except.ok t)) :
    m2 = memoSet m key (now, t) := by
  unfold executeLLMRun at h
  rcases hrl : retryLoop call fuel 0 BACKOFF_MS [] with ⟨a0, s0, r0⟩
  rw [hrl] at h
  cases r0 with
  | ok tx =>
    simp only [Prod.mk.injEq] at h
    rcases h with ⟨hm, _, _, ht⟩
    injection ht with ht2
    rw [← hm, ← ht2]
  | error e =>
    simp only [Prod.mk.injEq] at h
    exact absurd h.2.2.2 (by simp)

/-- C7 counterexample to the original claim: `if (cached)` is a JavaScript
truthiness test, so a memoized EMPTY response text is not served from cache.
Concretely: a first invocation whose model replies with the empty string
succeeds with 1 external attempt and memoizes the empty text; a second
invocation with the same (modelId, prompt) 1 ms later — well within the TTL
window — again issues 1 external attempt instead of the claimed zero. -/
theorem executeLLM_empty_cached_reissues :
    (executeLLM [] 0 (lit "p") (lit "m") (fun _ => Except.ok []) 10).2.2.2 = Except.ok []
      ∧ (executeLLM [] 0 (lit "p") (lit "m") (fun _ => Except.ok []) 10).2.1 = 1
      ∧ memoFind (executeLLM [] 0 (lit "p") (lit "m") (fun _ => Except.ok []) 10).1
          (promptKey (lit "m") (lit "p")) = some (0, [])
      ∧ (executeLLM
          (executeLLM [] 0 (lit "p") (lit "m") (fun _ => Except.ok []) 10).1
          1 (lit "p") (lit "m") (fun _ => Except.ok []) 10).2.1 = 1 :=
  ⟨rfl, rfl, rfl, rfl⟩

/-- C7 amended: memoization idempotence for non-empty responses.  If an
executeLLM invocation at time t1 issues at least one external call and
successfully returns a NON-EMPTY text, then a second invocation with the same
(modelId, prompt) at any t2 within the TTL window (t2 - t1 at most
MEMO_TTL_MS) returns the identical raw text, issues zero external attempts,
and leaves the memo untouched.  (A first success with empty text is
re-fetched: `if (cached)` is falsy on the empty string — see the
counterexample above.) -/
theorem executeLLM_cached_idempotent (memo : Memo) (t1 t2 : Nat)
    (prompt modelName : Str) (call1 call2 : Nat → Except JSError Str)
    (fuel1 fuel2 : Nat) (memo1 : Memo) (n1 : Nat) (sleeps1 : List Nat) (text1 : Str)
    (hrun1 : executeLLM memo t1 prompt modelName call1 fuel1
      = (memo1, n1, sleeps1, Except.ok text1))
    (hn1 : 1 ≤ n1) (htext : text1 ≠ []) (_hle : t1 ≤ t2) (httl : t2 - t1 ≤ MEMO_TTL_MS) :
    executeLLM memo1 t2 prompt modelName call2 fuel2 = (memo1, 0, [], Except.ok text1) := by
  have hstored : memoFind memo1 (promptKey modelName prompt) = some (t1, text1) := by
    unfold executeLLM at hrun1
    rcases hf : memoFind memo (promptKey modelName prompt) with _ | ⟨at_, text⟩
    · simp only [hf] at hrun1
      rw [executeLLMRun_ok_memo _ _ _ _ _ _ _ _ _ hrun1]
      exact memoFind_memoSet _ _ _
    · simp only [hf] at hrun1
      by_cases hexp : MEMO_TTL_MS < t1 - at_
      · rw [if_pos hexp] at hrun1
        rw [executeLLMRun_ok_memo _ _ _ _ _ _ _ _ _ hrun1]
        exact memoFind_memoSet _ _ _
      · rw [if_neg hexp] at hrun1
        by_cases hemp : text.isEmpty
        · rw [if_pos hemp] at hrun1
          rw [executeLLMRun_ok_memo _ _ _ _ _ _ _ _ _ hrun1]
          exact memoFind_memoSet _ _ _
        · rw [if_neg hemp] at hrun1
          simp only [Prod.mk.injEq] at hrun1
          omega
  unfold executeLLM
  simp only [hstored]
  rw [if_neg (by omega), if_neg (by simp only [List.isEmpty_iff]; exact htext)]

theorem executeLLM_cached_idempotent_witness :
    executeLLM [(promptKey (lit "m") (lit "p"), 0, lit "text1")] 15000 (lit "p") (lit "m")
        (fun _ => Except.error err503) 10
      = ([(promptKey (lit "m") (lit "p"), 0, lit "text1")], 0, [], Except.ok (lit "text1")) :=
  executeLLM_cached_idempotent [] 0 15000 (lit "p") (lit "m")
    (fun _ => Except.ok (lit "text1")) (fun _ => Except.error err503) 10 10
    [(promptKey (lit "m") (lit "p"), 0, lit "text1")] 1 [] (lit "text1")
    rfl (by decide) (by decide) (by decide) (by decide)

/-! ## Claim C8 -/
/-- Does `s` parse as JSON to an object carrying a `recommendations` array? -/
def recoversRecsArr (s : Str) : Bool :=
  match jsonParse s with
  | some v => (recommendationsArr v).isSome
  | none => false

/-- Modelled from the spec: the first balanced top-level brace-delimited
substring of the text ("scans for the first balanced top-level object-looking
substring"), by brace-depth counting from the first opening brace.  Stated
only to compare the claimed fallback with the source's greedy regex. -/
def balancedFrom (depth : Nat) (acc : Str) : Str → Option Str
  | [] => none
  | c :: rest =>
    if c = '{' then balancedFrom (depth + 1) (c :: acc) rest
    else if c = '}' then
      if depth = 1 then some (c :: acc).reverse
      else balancedFrom (depth - 1) (c :: acc) rest
    else balancedFrom depth (c :: acc) rest

/-- Modelled from the spec: see `balancedFrom`. -/
def firstBalanced (raw : Str) : Option Str :=
  match raw.dropWhile (fun c => decide (c ≠ '{')) with
  | [] => none
  | c :: rest => balancedFrom 1 [c] rest

/-- Prose with a parsable object followed by a stray closing brace. -/
def rawStray : Str := lit "x \x7b\"recommendations\":[]\x7d y\x7d"

/-- C8, counterexample to the claim as stated: the fallback does not extract
the first balanced top-level brace-delimited substring.  On prose holding a
recoverable object followed by a stray closing brace, the first balanced
substring parses to an object with a recommendations array, yet parseLLMJson
throws, because the greedy regex runs from the first opening brace to the
last closing brace of the whole text. -/
theorem parseLLMJson_misses_first_balanced :
    firstBalanced rawStray = some (lit "\x7b\"recommendations\":[]\x7d")
      ∧ recoversRecsArr (lit "\x7b\"recommendations\":[]\x7d") = true
      ∧ (parseLLMJson rawStray).isOk = false :=
  ⟨by decide, by decide, by decide⟩

/-- C8 amended: parseLLMJson first attempts a direct JSON parse; on any
failure of that route (syntax error or missing recommendations array) it
extracts the substring from the first opening brace to the last closing
brace and parses that.  It succeeds exactly when either the direct parse or
that greedy extraction yields an object with a recommendations array, and
throws a parse error otherwise. -/
theorem parseLLMJson_ok_characterization (raw : Str) :
    (parseLLMJson raw).isOk = true
      ↔ (recoversRecsArr raw = true
          ∨ (match braceExtract raw with
              | some sub => recoversRecsArr sub
              | none => false) = true) := by
  unfold parseLLMJson recoversRecsArr
  cases hj : jsonParse raw with
  | none =>
    simp only []
    cases hb : braceExtract raw with
    | none => simp [Except.isOk, Except.toBool]
    | some sub =>
      simp only []
      cases hjs : jsonParse sub with
      | none => simp [Except.isOk, Except.toBool]
      | some v =>
        cases hrv : (recommendationsArr v).isSome <;> simp [hrv, Except.isOk, Except.toBool]
  | some v =>
    cases hrv : (recommendationsArr v).isSome with
    | true => simp [hrv, Except.isOk, Except.toBool]
    | false =>
      simp only [hrv, Bool.false_eq_true, if_false, ite_false]
      cases hb : braceExtract raw with
      | none => simp [Except.isOk, Except.toBool]
      | some sub =>
        simp only []
        cases hjs : jsonParse sub with
        | none => simp [Except.isOk, Except.toBool]
        | some w =>
          cases hrw : (recommendationsArr w).isSome <;> simp [hrw, Except.isOk, Except.toBool]

/-! ## Claim C4: the percent marker of stored rows -/
theorem takeWhile_app_stop {p : Char → Bool} (a : Str) (x : Char) (r : Str)
    (ha : ∀ c ∈ a, p c = true) (hx : p x = false) :
    (a ++ x :: r).takeWhile p = a := by
  rw [List.takeWhile_append_of_pos ha]
  simp [List.takeWhile_cons, hx]

theorem dropWhile_app_stop {p : Char → Bool} (a : Str) (x : Char) (r : Str)
    (ha : ∀ c ∈ a, p c = true) (hx : p x = false) :
    (a ++ x :: r).dropWhile p = x :: r := by
  rw [List.dropWhile_append_of_pos ha]
  simp [List.dropWhile_cons, hx]

/-- Pointwise case-insensitive equality of two strings. -/
def ciMatch : Str → Str → Bool
  | [], [] => true
  | p :: ps, c :: cs => charEqCI p c && ciMatch ps cs
  | _, _ => false

theorem dropCaseless_inv (pat : Str) : ∀ (s r : Str), dropCaseless pat s = some r →
    ∃ m, s = m ++ r ∧ ciMatch pat m = true := by
  induction pat with
  | nil =>
    intro s r h
    unfold dropCaseless at h
    injection h with h2
    exact ⟨[], by rw [h2]; rfl, rfl⟩
  | cons p ps ih =>
    intro s r h
    cases s with
    | nil => cases h
    | cons c cs =>
      unfold dropCaseless at h
      by_cases hc : charEqCI p c = true
      · rw [if_pos hc] at h
        rcases ih cs r h with ⟨m, hm1, hm2⟩
        exact ⟨c :: m, by rw [hm1]; rfl, by simp [ciMatch, hc, hm2]⟩
      · rw [if_neg hc] at h; cases h

theorem dropCaseless_sound (pat : Str) : ∀ (m r : Str), ciMatch pat m = true →
    dropCaseless pat (m ++ r) = some r := by
  induction pat with
  | nil =>
    intro m r h
    cases m with
    | nil => rfl
    | cons c cs => simp [ciMatch] at h
  | cons p ps ih =>
    intro m r h
    cases m with
    | nil => simp [ciMatch] at h
    | cons c cs =>
      simp only [ciMatch, Bool.and_eq_true] at h
      show dropCaseless (p :: ps) (c :: (cs ++ r)) = some r
      unfold dropCaseless
      rw [if_pos h.1]
      exact ih cs r h.2

theorem charEqCI_m_not_ws (c : Char) (h : charEqCI 'm' c = true) : jsWS c = false := by
  by_contra hw
  have hw2 : jsWS c = true := by
    cases hjs : jsWS c
    · exact absurd hjs hw
    · rfl
  simp only [jsWS, Bool.or_eq_true, decide_eq_true_eq] at hw2
  rcases hw2 with ⟨⟨⟨⟨h1 | h1⟩ | h1⟩ | h1⟩ | h1⟩ | h1 <;>
    · subst h1; exact absurd h (by decide)

theorem matchPctMarker_sound (d ws2 m : Str) (w : Char) (ws5 X : Str)
    (hd : ∀ c ∈ d, c.isDigit = true) (hd1 : 1 ≤ d.length) (hd3 : d.length ≤ 3)
    (hws2 : ∀ c ∈ ws2, jsWS c = true) (hm : ciMatch (lit "match") m = true)
    (hw : jsWS w = true) (hws5 : ∀ c ∈ ws5, jsWS c = true) :
    matchPctMarker ('(' :: (d ++ '%' :: (ws2 ++ (m ++ ')' :: (w :: (ws5 ++ X))))))
      = some (digitsToNat d, X.dropWhile jsWS) := by
  have hm0 : ∃ m0 ms, m = m0 :: ms ∧ charEqCI 'm' m0 = true := by
    cases m with
    | nil => exact absurd hm (by decide)
    | cons m0 ms =>
      refine ⟨m0, ms, rfl, ?_⟩
      have h2 : ciMatch ('m' :: lit "atch") (m0 :: ms) = true := hm
      simp only [ciMatch, Bool.and_eq_true] at h2
      exact h2.1
  rcases hm0 with ⟨m0, ms, rfl, hm0eq⟩
  simp only [matchPctMarker]
  rw [takeWhile_app_stop d '%' _ hd (by decide), dropWhile_app_stop d '%' _ hd (by decide)]
  have h1 : decide (List.length d < 1) = false := decide_eq_false (by omega)
  have h2 : decide (3 < List.length d) = false := decide_eq_false (by omega)
  simp only [if_true, h1, h2, Bool.or_self, Bool.false_eq_true, if_false]
  have hassoc : ws2 ++ (m0 :: ms ++ ')' :: w :: (ws5 ++ X))
      = ws2 ++ m0 :: (ms ++ ')' :: (w :: (ws5 ++ X))) := by simp
  rw [hassoc, dropWhile_app_stop ws2 m0 _ hws2 (charEqCI_m_not_ws m0 hm0eq)]
  rw [show m0 :: (ms ++ ')' :: (w :: (ws5 ++ X))) = (m0 :: ms) ++ ')' :: (w :: (ws5 ++ X))
    from rfl]
  rw [dropCaseless_sound _ _ _ hm]
  simp only [if_true, hw, List.dropWhile_append_of_pos hws5]

/-- Inversion of the percent-marker matcher into its matched pieces. -/
theorem matchPctMarker_inv (s : Str) (nn : Nat) (rest : Str)
    (h : matchPctMarker s = some (nn, rest)) :
    ∃ d ws2 m w ws5,
      s = '(' :: (d ++ '%' :: (ws2 ++ (m ++ ')' :: (w :: (ws5 ++ rest)))))
        ∧ (∀ c ∈ d, c.isDigit = true) ∧ 1 ≤ d.length ∧ d.length ≤ 3
        ∧ digitsToNat d = nn
        ∧ (∀ c ∈ ws2, jsWS c = true) ∧ ciMatch (lit "match") m = true
        ∧ jsWS w = true ∧ (∀ c ∈ ws5, jsWS c = true)
        ∧ (rest = [] ∨ ∃ r0 rs, rest = r0 :: rs ∧ jsWS r0 = false) := by
  cases s with
  | nil => cases h
  | cons c0 t =>
    simp only [matchPctMarker] at h
    split at h
    case isFalse => cases h
    case isTrue hc0 =>
    split at h
    case isTrue => cases h
    case isFalse hlen =>
    split at h
    case h_1 => cases h
    case h_2 c1 t2 ht1 =>
    split at h
    case isFalse => cases h
    case isTrue hc1 =>
    split at h
    case h_2 => cases h
    case h_1 x c3 t4 hdc =>
    split at h
    case isFalse => cases h
    case isTrue hc3 =>
    split at h
    case h_2 => cases h
    case h_1 w t5 =>
    split at h
    case isFalse => cases h
    case isTrue hwx =>
    injection h with h2
    injection h2 with hnn hrest
    subst hc0
    subst hc1
    subst hc3
    subst hrest
    rcases dropCaseless_inv _ _ _ hdc with ⟨m, hm1, hm2⟩
    refine ⟨List.takeWhile Char.isDigit t, List.takeWhile jsWS t2, m, w,
      List.takeWhile jsWS t5, ?_, fun c hc => List.mem_takeWhile_imp hc, ?_, ?_, hnn,
      fun c hc => List.mem_takeWhile_imp hc, hm2, hwx,
      fun c hc => List.mem_takeWhile_imp hc, ?_⟩
    · rw [List.takeWhile_append_dropWhile jsWS t5, ← hm1,
        List.takeWhile_append_dropWhile jsWS t2, ← ht1,
        List.takeWhile_append_dropWhile Char.isDigit t]
    · simp only [Bool.or_eq_true, decide_eq_true_eq, not_or] at hlen
      omega
    · simp only [Bool.or_eq_true, decide_eq_true_eq, not_or] at hlen
      omega
    · cases hr : List.dropWhile jsWS t5 with
      | nil => exact Or.inl rfl
      | cons r0 rs =>
        refine Or.inr ⟨r0, rs, rfl, ?_⟩
        have hne : List.dropWhile jsWS t5 ≠ [] := by rw [hr]; simp
        have hhd := List.head_dropWhile_not jsWS t5 hne
        simp only [hr, List.head_cons] at hhd
        exact hhd

theorem dropWhile_ne_nil_of_mem {p : Char → Bool} {l : Str} {x : Char}
    (hx : x ∈ l) (hpx : p x = false) : l.dropWhile p ≠ [] := by
  induction l with
  | nil => cases hx
  | cons a t ih =>
    rw [List.dropWhile_cons]
    by_cases hpa : p a = true
    · rw [if_pos hpa]
      rcases List.mem_cons.mp hx with rfl | hxt
      · rw [hpa] at hpx; cases hpx
      · exact ih hxt
    · rw [if_neg hpa]; simp

/-- Trailing trim leaves a leading block alone when a later character is
non-whitespace. -/
theorem jsTrimRight_append (a b : Str) (hb : ∃ x ∈ b, jsWS x = false) :
    jsTrimRight (a ++ b) = a ++ jsTrimRight b := by
  unfold jsTrimRight
  rw [List.reverse_append, List.dropWhile_append]
  rcases hb with ⟨x, hx, hxf⟩
  have hne : ¬ (b.reverse.dropWhile jsWS).isEmpty = true := by
    intro hemp
    exact dropWhile_ne_nil_of_mem (List.mem_reverse.mpr hx) hxf
      (List.isEmpty_iff.mp hemp)
  rw [if_neg hne, List.reverse_append, List.reverse_reverse]

theorem jsTrimLeft_cons_of_not_ws {c : Char} (l : Str) (h : jsWS c = false) :
    jsTrimLeft (c :: l) = c :: l := by
  simp [jsTrimLeft, List.dropWhile_cons, h]

theorem jsTrimRight_cons_of_not_ws {r0 : Char} (rs : Str) (h : jsWS r0 = false) :
    jsTrimRight (r0 :: rs) = r0 :: jsTrimRight rs := by
  by_cases hrs : ∃ x ∈ rs, jsWS x = false
  · exact jsTrimRight_append [r0] rs hrs
  · have hall : ∀ x ∈ rs, jsWS x = true := by
      intro x hx
      cases hjs : jsWS x
      · exact absurd ⟨x, hx, hjs⟩ hrs
      · rfl
    unfold jsTrimRight
    rw [List.reverse_cons,
      List.dropWhile_append_of_pos (fun c hc => hall c (List.mem_reverse.mp hc))]
    have h1 : List.dropWhile jsWS [r0] = [r0] := by simp [List.dropWhile_cons, h]
    have h2 : List.dropWhile jsWS rs.reverse = [] :=
      List.dropWhile_eq_nil_iff.mpr (fun c hc => hall c (List.mem_reverse.mp hc))
    rw [h1, h2]
    rfl

/-- The percent marker survives `trim` whenever the text after it does not
trim to nothing (which the rationale-content validator guarantees). -/
theorem matchPctMarker_jsTrim (s : Str) (nn : Nat) (rest : Str)
    (h : matchPctMarker s = some (nn, rest))
    (hne : (jsTrim rest).isEmpty = false) :
    matchPctMarker (jsTrim s) = some (nn, jsTrim rest) := by
  rcases matchPctMarker_inv s nn rest h with
    ⟨d, ws2, m, w, ws5, hs, hd, hd1, hd3, hnn, hws2, hm, hw, hws5, hrest⟩
  rcases hrest with rfl | ⟨r0, rs, rfl, hr0⟩
  · simp [jsTrim, jsTrimLeft, jsTrimRight] at hne
  · subst hs
    have hTrimRest : jsTrim (r0 :: rs) = r0 :: jsTrimRight rs := by
      rw [jsTrim, jsTrimLeft_cons_of_not_ws _ hr0, jsTrimRight_cons_of_not_ws _ hr0]
    have hA : '(' :: (d ++ '%' :: (ws2 ++ (m ++ ')' :: (w :: (ws5 ++ (r0 :: rs))))))
        = ('(' :: (d ++ '%' :: (ws2 ++ (m ++ ')' :: (w :: ws5))))) ++ (r0 :: rs) := by
      simp [List.append_assoc]
    rw [jsTrim, jsTrimLeft_cons_of_not_ws _ (by decide), hA,
      jsTrimRight_append _ _ ⟨r0, List.mem_cons_self _ _, hr0⟩,
      jsTrimRight_cons_of_not_ws _ hr0]
    have hshape : ('(' :: (d ++ '%' :: (ws2 ++ (m ++ ')' :: (w :: ws5)))))
          ++ (r0 :: jsTrimRight rs)
        = '(' :: (d ++ '%' :: (ws2 ++ (m ++ ')' :: (w :: (ws5 ++ (r0 :: jsTrimRight rs)))))) := by
      simp [List.append_assoc]
    rw [hshape, matchPctMarker_sound d ws2 m w ws5 (r0 :: jsTrimRight rs) hd hd1 hd3 hws2 hm
      hw hws5]
    rw [hTrimRest, hnn]
    have : List.dropWhile jsWS (r0 :: jsTrimRight rs) = r0 :: jsTrimRight rs := by
      simp [List.dropWhile_cons, hr0]
    rw [this]

/-- What passing the score/percent validator guarantees per entry. -/
theorem validateScoreAndPercentAgreement_ok (l : List LLMRec) (u : Unit)
    (h : validateScoreAndPercentAgreement l = Except.ok u) :
    ∀ r ∈ l, 0 ≤ r.score ∧ r.score ≤ 1
      ∧ ∃ nn rest, matchPctMarker r.rationale = some (nn, rest)
          ∧ nn ≤ 100 ∧ ((nn : ℤ) - jsRound (r.score * 100)).natAbs ≤ 10 := by
  induction l with
  | nil => intro r hr; cases hr
  | cons x xs ih =>
    intro r hr
    unfold validateScoreAndPercentAgreement at h
    split at h
    · cases h
    · rename_i hsc
      split at h
      · cases h
      · rename_i pr nn rest2 hpm
        split at h
        · cases h
        · rename_i h100
          split at h
          · cases h
          · rename_i h10
            rcases List.mem_cons.mp hr with rfl | hr2
            · push_neg at hsc
              exact ⟨hsc.1, hsc.2, nn, rest2, hpm, by omega, by omega⟩
            · exact ih h r hr2

/-- What passing the rationale-content validator guarantees per entry:
the stripped rationale is non-empty. -/
theorem validateRationaleRules_ok_nonempty (l : List LLMRec) (u : Unit)
    (h : validateRationaleRules l = Except.ok u) :
    ∀ r ∈ l, (strippedRationale r.rationale).isEmpty = false := by
  induction l with
  | nil => intro r hr; cases hr
  | cons x xs ih =>
    intro r hr
    unfold validateRationaleRules at h
    by_cases h1 : (strippedRationale x.rationale).isEmpty
    · rw [if_pos h1] at h; cases h
    · rw [if_neg h1] at h
      by_cases hb : hasBannedUpper (strippedRationale x.rationale)
      · rw [if_pos hb] at h; cases h
      · rw [if_neg hb] at h
        by_cases h3 : 3 < sentenceCount (strippedRationale x.rationale)
        · rw [if_pos h3] at h; cases h
        · rw [if_neg h3] at h
          rcases List.mem_cons.mp hr with rfl | hr2
          · cases hjs : (strippedRationale r.rationale).isEmpty
            · rfl
            · exact absurd hjs h1
          · exact ih h r hr2

/-- The pieces of a passed full validation. -/
theorem validateLLM_ok_parts (parsed : JVal) (unseen : List Str) (typed : List LLMRec)
    (h : validateLLMRecommendations parsed unseen = Except.ok typed) :
    (∃ u1, validateNoDuplicatesAndOnlyUnseen typed unseen = Except.ok u1)
      ∧ (∃ u2, validateScoreAndPercentAgreement typed = Except.ok u2)
      ∧ (∃ u3, validateRationaleRules typed = Except.ok u3) := by
  unfold validateLLMRecommendations at h
  cases hrec : recommendationsArr parsed with
  | none => simp only [hrec] at h; cases h
  | some rs =>
    simp only [hrec] at h
    by_cases hemp : rs.isEmpty
    · rw [if_pos hemp] at h; cases h
    · rw [if_neg hemp] at h
      cases hms : rs.mapM checkShape with
      | error e => simp only [hms] at h; cases h
      | ok typed0 =>
        simp only [hms] at h
        cases hd : validateNoDuplicatesAndOnlyUnseen typed0 unseen with
        | error e => simp only [hd] at h; cases h
        | ok u1 =>
          simp only [hd] at h
          cases hs : validateScoreAndPercentAgreement typed0 with
          | error e => simp only [hs] at h; cases h
          | ok u2 =>
            simp only [hs] at h
            cases hrr : validateRationaleRules typed0 with
            | error e => simp only [hrr] at h; cases h
            | ok u3 =>
              simp only [hrr] at h
              injection h with h2
              subst h2
              exact ⟨⟨u1, hd⟩, ⟨u2, hs⟩, ⟨u3, hrr⟩⟩

/-- `clamp01` on an in-range score is the identity. -/
theorem clamp01_of_bounds (q : ℚ) (h0 : 0 ≤ q) (h1 : q ≤ 1) : clamp01 q = q := by
  unfold clamp01
  rw [min_eq_right h1, max_eq_right h0]

/-- C4 amended: for every successful llmRecommend call that reaches the LLM
(exactly one external call), every stored row has a score in [0,1] and a
rationale that begins with a percent marker — open parenthesis, an integer
NN in [0,100], a percent sign, optional whitespace, the word match in any
letter case, a closing parenthesis, then whitespace — with NN within 10 of
round(score times 100).  The marker need not be the literal text
"(NN% match) ": case and spacing are flexible (see the counterexample). -/
theorem llmRecommend_ok_score_marker (st : SpotState) (user : Str) (k : ℤ)
    (candidates : List Str) (llmResult : Except String Str) (now : Nat) (mv : Option Str)
    (res : List (Str × Str))
    (hcalls : (llmRecommend st user k candidates llmResult now mv).2.1 = 1)
    (h : (llmRecommend st user k candidates llmResult now mv).2.2 = Except.ok res) :
    ∀ row ∈ (llmRecommend st user k candidates llmResult now mv).1.Recommendations user,
      0 ≤ row.score ∧ row.score ≤ 1
        ∧ ∃ nn rest, matchPctMarker row.rationale = some (nn, rest)
            ∧ nn ≤ 100 ∧ ((nn : ℤ) - jsRound (row.score * 100)).natAbs ≤ 10 := by
  revert hcalls h
  unfold llmRecommend
  by_cases hk : k < 1
  · rw [if_pos hk]; intro hcalls; cases hcalls
  · rw [if_neg hk]
    by_cases h1 : (st.TasteSignals user).isEmpty
    · rw [if_pos h1]; intro hcalls; cases hcalls
    · rw [if_neg h1]
      by_cases h2 : (unseenOf st user candidates).isEmpty
      · rw [if_pos h2]; intro hcalls; cases hcalls
      · rw [if_neg h2]
        cases llmResult with
        | error e2 => intro _ hh; cases hh
        | ok raw =>
          cases hp : parseLLMJson raw with
          | error e2 => simp only [hp]; intro _ hh; cases hh
          | ok parsed =>
            simp only [hp]
            cases hv : validateLLMRecommendations parsed (unseenOf st user candidates) with
            | error e2 => simp only [hv]; intro _ hh; cases hh
            | ok typed =>
              simp only [hv]
              intro _ _ row hrow
              simp only [setMap, if_pos rfl] at hrow
              rcases List.mem_map.mp hrow with ⟨t, ht, rfl⟩
              have htop := List.take_subset _ _ ht
              have hfil := (sortByScoreDesc_perm TopEntry.score _).mem_iff.mp htop
              have hmem := (List.mem_filter.mp hfil).1
              rcases List.mem_map.mp hmem with ⟨rec, hrec, rfl⟩
              rcases validateLLM_ok_parts parsed _ typed hv with ⟨_, ⟨u2, hs⟩, ⟨u3, hrr⟩⟩
              rcases validateScoreAndPercentAgreement_ok typed u2 hs rec hrec with
                ⟨hq0, hq1, nn, rest2, hpm, h100, h10⟩
              have hne := validateRationaleRules_ok_nonempty typed u3 hrr rec hrec
              have hstr : strippedRationale rec.rationale = jsTrim rest2 := by
                unfold strippedRationale
                rw [hpm]
              rw [hstr] at hne
              have hclamp : clamp01 rec.score = rec.score := clamp01_of_bounds _ hq0 hq1
              refine ⟨?_, ?_, nn, jsTrim rest2, ?_, h100, ?_⟩
              · show (0:ℚ) ≤ clamp01 rec.score
                rw [hclamp]; exact hq0
              · show clamp01 rec.score ≤ 1
                rw [hclamp]; exact hq1
              · show matchPctMarker (jsTrim rec.rationale) = some (nn, jsTrim rest2)
                exact matchPctMarker_jsTrim _ _ _ hpm hne
              · show ((nn:ℤ) - jsRound (clamp01 rec.score * 100)).natAbs ≤ 10
                rw [hclamp]; exact h10

theorem llmRecommend_ok_score_marker_witness :
    0 ≤ rowCE.score ∧ rowCE.score ≤ 1
      ∧ ∃ nn rest, matchPctMarker rowCE.rationale = some (nn, rest)
          ∧ nn ≤ 100 ∧ ((nn : ℤ) - jsRound (rowCE.score * 100)).natAbs ≤ 10 :=
  llmRecommend_ok_score_marker stCE1 (lit "u") 1 [lit "B"] (Except.ok rawOkB) 1 none
    [(lit "B", lit "(90% match) Calm rooms.")] rfl rfl rowCE
    (by
      have hlist : (llmRecommend stCE1 (lit "u") 1 [lit "B"]
          (Except.ok rawOkB) 1 none).1.Recommendations (lit "u") = [rowCE] := rfl
      rw [hlist]; exact List.mem_singleton.mpr rfl)

/-- Decimal digits of `n` (`fuel` bounds the digit count). -/
def natDecAux : Nat → Nat → Str
  | 0, _ => []
  | _ + 1, 0 => []
  | fuel + 1, n => natDecAux fuel (n / 10) ++ [Char.ofNat (48 + n % 10)]

/-- Decimal rendering of a (small) natural number. -/
def natDec (n : Nat) : Str := if n = 0 then ['0'] else natDecAux 4 n

/-- A model answer whose marker has no space and an upper-case MATCH. -/
def rawFlexB : Str :=
  lit "\x7b\"recommendations\":[\x7b\"museumId\":\"B\",\"score\":0.9,\"rationale\":\"(90%MATCH) Fine.\"\x7d]\x7d"

/-- C4, counterexample to the claim as stated: a successful run stores the
rationale "(90%MATCH) Fine.", which does not begin with the literal string
"(NN% match) " for any NN in [0,100] — the validator accepts a
case-insensitive marker with flexible whitespace. -/
theorem llmRecommend_accepts_flexible_marker :
    (llmRecommend stCE1 (lit "u") 1 [lit "B"] (Except.ok rawFlexB) 1 none).2.2
        = Except.ok [(lit "B", lit "(90%MATCH) Fine.")]
      ∧ ((llmRecommend stCE1 (lit "u") 1 [lit "B"]
            (Except.ok rawFlexB) 1 none).1.Recommendations (lit "u")).map
          (fun r => r.rationale) = [lit "(90%MATCH) Fine."]
      ∧ (∀ nn ∈ List.range 101,
          ((lit "(" ++ natDec nn ++ lit "% match) ").isPrefixOf
            (lit "(90%MATCH) Fine.")) = false) :=
  ⟨by rfl, by decide, by decide⟩

/-! ## Claim C9: the ranking pipeline -/
/-- Modelled from the spec's ranking sentence: clamp each validated score
defensively into [0,1] and re-filter to the unseen set. -/
def clampedUnseen (typed : List LLMRec) (unseen : List Str) : List TopEntry :=
  (typed.map fun rec => (⟨rec.museumId, jsTrim rec.rationale, clamp01 rec.score⟩ : TopEntry)).filter
    fun r => unseen.contains r.museum

/-- Modelled from the spec's ranking sentence: sort by score descending
(stable on ties) and truncate to the first `k`. -/
def rankerSelectorSpec (typed : List LLMRec) (unseen : List Str) (k : ℤ) : List TopEntry :=
  (sortByScoreDesc TopEntry.score (clampedUnseen typed unseen)).take k.toNat

/-- C9: ranking postcondition.  A successful llmRecommend call that reaches
the LLM commits and returns exactly the validated entries transformed by the
spec's ranker: clamp each score into [0,1], keep only museums in the unseen
set, stable-sort by score descending, truncate to the first k.  The result
has at most k entries, is sorted by score descending, draws only unseen
museums with scores in [0,1], and the sort preserves the model's original
order among equal scores. -/
theorem llmRecommend_ranking (st : SpotState) (user : Str) (k : ℤ)
    (candidates : List Str) (raw : Str) (now : Nat) (mv : Option Str)
    (parsed : JVal) (typed : List LLMRec)
    (hk : ¬ k < 1) (h1 : ¬ (st.TasteSignals user).isEmpty = true)
    (h2 : ¬ (unseenOf st user candidates).isEmpty = true)
    (hp : parseLLMJson raw = Except.ok parsed)
    (hv : validateLLMRecommendations parsed (unseenOf st user candidates) = Except.ok typed) :
    llmRecommend st user k candidates (Except.ok raw) now mv
        = ({ st with Recommendations := (setMap st.Recommendations user
              ((rankerSelectorSpec typed (unseenOf st user candidates) k).map fun t =>
                (⟨user, t.museum, t.score, t.rationale, now,
                  mv.getD (lit "gemini-2.5-flash-lite"),
                  simpleHash (buildPromptFromTasteSignals (st.TasteSignals user)
                    (unseenOf st user candidates) k)⟩ : RecommendationRow))) },
            1,
            Except.ok ((rankerSelectorSpec typed (unseenOf st user candidates) k).map
              fun t => (t.museum, t.rationale)))
      ∧ (rankerSelectorSpec typed (unseenOf st user candidates) k).length ≤ k.toNat
      ∧ List.Pairwise (fun a b => b.score ≤ a.score)
          (rankerSelectorSpec typed (unseenOf st user candidates) k)
      ∧ (∀ t ∈ rankerSelectorSpec typed (unseenOf st user candidates) k,
          t.museum ∈ unseenOf st user candidates ∧ 0 ≤ t.score ∧ t.score ≤ 1)
      ∧ (∀ q : ℚ,
          (sortByScoreDesc TopEntry.score (clampedUnseen typed (unseenOf st user candidates))).filter
              (fun a => decide (a.score = q))
            = (clampedUnseen typed (unseenOf st user candidates)).filter
              (fun a => decide (a.score = q))) := by
  refine ⟨?_, List.length_take_le _ _, ?_, ?_, fun q => sortByScoreDesc_stable _ _ q⟩
  · unfold llmRecommend
    rw [if_neg hk, if_neg h1, if_neg h2]
    simp only [hp, hv]
    rfl
  · exact (sortByScoreDesc_sorted TopEntry.score _).sublist (List.take_sublist _ _)
  · intro t ht
    have hsort := List.take_subset _ _ ht
    have hfil := (sortByScoreDesc_perm TopEntry.score _).mem_iff.mp hsort
    have hcontains := (List.mem_filter.mp hfil).2
    have hmem := (List.mem_filter.mp hfil).1
    rcases List.mem_map.mp hmem with ⟨rec, _, rfl⟩
    refine ⟨by simpa using hcontains, le_max_left _ _, ?_⟩
    exact max_le (by norm_num) (min_le_left _ _)

theorem llmRecommend_ranking_witness :
    (rankerSelectorSpec [⟨lit "B", (9:ℚ)/10, lit "(90% match) Calm rooms."⟩]
        (unseenOf stCE1 (lit "u") [lit "B"]) 1).length ≤ (1:ℤ).toNat :=
  (llmRecommend_ranking stCE1 (lit "u") 1 [lit "B"] rawOkB 1 none parsedOkB
    [⟨lit "B", (9:ℚ)/10, lit "(90% match) Calm rooms."⟩]
    (by decide) (by decide) (by decide) rfl rfl).2.1
